import Mathlib

/-!
# The GET command of the queue broker (`controller/get.go`)

A shallow embedding of `parseGetCommand` and of the per-connection GET state
machine (`Controller.Get`, `get`, `getClose`, `abort`, `peek`), followed by the
properties established about them.

Go strings and byte slices are modelled as lists of characters.  Every string
operation used by the source (`strings.Contains`, `strings.SplitN`,
`strings.Trim`, the regular expression `(t\=)(\d+)(\/)?`, `strconv.Atoi`) works
on single-byte ASCII patterns, so the list model follows the library functions
position by position.  The one place where the source prints a byte count, the
length field of the `VALUE` line, uses the UTF-8 byte length `byteLen`.
-/

namespace Siberite

/-! ## Strings -/

/-- A Go `string` (also used for `[]byte` payloads). -/
abbrev Str := List Char

/-- Go `strings.Contains(s, substr)`: `substr` occurs somewhere in `s`. -/
def contains (s substr : Str) : Bool :=
  match s with
  | [] => substr.isEmpty
  | c :: cs => substr.isPrefixOf (c :: cs) || contains cs substr

/-- Split `s` around the first occurrence of `sep` (the `strings.Index` step of
`strings.SplitN`): the text before it and the text after it. -/
def cut (s sep : Str) : Option (Str × Str) :=
  match s with
  | [] => if sep.isEmpty then some ([], []) else none
  | c :: cs =>
    if sep.isPrefixOf (c :: cs) then some ([], (c :: cs).drop sep.length)
    else match cut cs sep with
      | some (a, b) => some (c :: a, b)
      | none => none

/-- The loop of Go `genSplit`: at most `n` cuts, the last piece is the unsplit rest. -/
def genSplitLoop : Nat → Str → Str → List Str
  | 0, s, _ => [s]
  | n + 1, s, sep =>
    match cut s sep with
    | none => [s]
    | some (a, b) => a :: genSplitLoop n b sep

/-- Go `explode(s, n)`: split into single characters, at most `n` pieces. -/
def explode (s : Str) (n : Nat) : List Str :=
  let m := min n s.length
  (s.take (m - 1)).map (fun c => [c]) ++ (if 0 < m then [s.drop (m - 1)] else [])

/-- Go `strings.SplitN(s, sep, n)` for `n ≥ 0`. -/
def splitN (s sep : Str) (n : Nat) : List Str :=
  if n = 0 then []
  else if sep.isEmpty then explode s n
  else genSplitLoop (min n (s.length + 1) - 1) s sep

/-- Go `strings.Trim(s, cutset)`: drop leading and trailing characters of `cutset`. -/
def trim (s cutset : Str) : Str :=
  (((s.dropWhile (fun c => cutset.elem c)).reverse).dropWhile (fun c => cutset.elem c)).reverse

/-- Value of a string of decimal digits. -/
def decimalValue (s : Str) : Nat :=
  s.foldl (fun n c => 10 * n + (c.toNat - 48)) 0

/-- Width of the Go `int` type on the 64-bit platforms the broker is built for. -/
def intSize : Nat := 64

/-- Largest value of the Go `int` type. -/
def maxInt : Int := 2 ^ (intSize - 1) - 1

/-- Smallest value of the Go `int` type. -/
def minInt : Int := -(2 ^ (intSize - 1))

/-- Go `strconv.Atoi(s)`: the value and whether the error is nil.  A syntax
error gives 0; a value out of range gives the nearest bound of `int` together
with a range error. -/
def atoi (s : Str) : Int × Bool :=
  let neg : Bool := s.head? = some '-'
  let body : Str := if s.head? = some '-' ∨ s.head? = some '+' then s.drop 1 else s
  if body.isEmpty ∨ ¬ body.all Char.isDigit then (0, false)
  else
    let un : Int := (decimalValue body : Nat)
    if ¬ neg ∧ un > maxInt then (maxInt, false)
    else if neg ∧ -un < minInt then (minInt, false)
    else (if neg then -un else un, true)

/-! ## The timeout pattern `(t\=)(\d+)(\/)?` -/

/-- The pattern `(t\=)(\d+)(\/)?` matched at the very start of `s`: the digit
run (group 2, greedy) and the optional slash (group 3). -/
def timeoutMatchAt (s : Str) : Option (Str × Str) :=
  if ['t', '='].isPrefixOf s then
    let digits := (s.drop 2).takeWhile Char.isDigit
    let rest := (s.drop 2).dropWhile Char.isDigit
    if digits.isEmpty then none
    else some (digits, if rest.head? = some '/' then ['/'] else [])
  else none

/-- Go `timeoutRegexp.FindStringSubmatch(s)`: the leftmost match and its three
groups, or the empty (nil) slice when nothing matches. -/
def findStringSubmatch (s : Str) : List Str :=
  match s with
  | [] => []
  | c :: cs =>
    match timeoutMatchAt (c :: cs) with
    | some (digits, slash) => [['t', '='] ++ digits ++ slash, ['t', '='], digits, slash]
    | none => findStringSubmatch cs

/-- Scan of `ReplaceAllString(s, "")`: `skip` counts the characters of the
current match still to be dropped; matches are taken leftmost and do not overlap. -/
def replaceAllAux : Nat → Str → Str
  | _, [] => []
  | k + 1, _ :: cs => replaceAllAux k cs
  | 0, c :: cs =>
    match timeoutMatchAt (c :: cs) with
    | some (digits, slash) => replaceAllAux (1 + digits.length + slash.length) cs
    | none => c :: replaceAllAux 0 cs

/-- Go `timeoutRegexp.ReplaceAllString(s, "")`. -/
def replaceAllString (s : Str) : Str := replaceAllAux 0 s

/-! ## Commands and the parser -/

/-- The parsed request (`Command`, declared outside `get.go`). -/
structure Command where
  Name : Str
  QueueName : Str
  SubCommand : Str
  ConsumerGroup : Str
  Timeout : Int
deriving DecidableEq

/-- Source `parseGetCommand`, with the consumer-group separator constant
`cgSeparator` (declared outside `get.go`) as a parameter.  The result is `none`
exactly when the Go code panics on an index out of range. -/
def parseGetCommand (cgSeparator : Str) (input : List Str) : Option Command := do
  let name ← input[0]?
  let spec ← input[1]?
  let cmd : Command :=
    { Name := name, QueueName := spec, SubCommand := [], ConsumerGroup := [], Timeout := 0 }
  let (cmd, spec) ←
    if contains spec ['t', '='] then do
      let fields := findStringSubmatch spec
      let digits ← fields[2]?
      pure ({ cmd with Timeout := (atoi digits).1 }, replaceAllString spec)
    else pure (cmd, spec)
  let cmd ←
    if contains spec ['/'] then do
      let tokens := splitN spec ['/'] 2
      let t0 ← tokens[0]?
      let t1 ← tokens[1]?
      pure { cmd with QueueName := t0, SubCommand := trim t1 ['/'] }
    else pure cmd
  if contains cmd.QueueName cgSeparator then do
    let tokens := splitN cmd.QueueName cgSeparator 3
    let t0 ← tokens[0]?
    let t1 ← tokens[1]?
    pure { cmd with QueueName := t0, ConsumerGroup := t1 }
  else pure cmd

/-! ## The connection state and the external collaborators -/

/-- A consumer handle is identified by its queue name and consumer group. -/
abbrev Key := Str × Str

/-- Errors returned by `Get`: `ErrInvalidCommand`, `ErrCloseCurrentItemFirst`
and `NewError(commonError, err)`. -/
inductive Err where
  | invalidCommand
  | closeCurrentItemFirst
  | common
deriving DecidableEq

/-- Calls made to the external collaborators, recorded in call order. -/
inductive Event where
  | getConsumer (k : Key)
  | getNext (k : Key)
  | peek (k : Key)
  | putBack (k : Key) (v : Str)
  | updateOpenReads (k : Key) (d : Int)
  | now
  | sleep
deriving DecidableEq

/-- Modelled from the spec: the behaviour of the external collaborators that
the handler does not control (consumer resolver, queue storage, clock, other
connections).  `resolveFails n k` and `putBackFails n k v` tell whether the call
made after `n` earlier collaborator calls fails; `clock n` is the `n`-th reading
of `time.Now().UnixNano()`; `arrivals n k` are the items other connections
enqueue for consumer `k` during the `n`-th sleep. -/
structure Env where
  resolveFails : Nat → Key → Bool
  putBackFails : Nat → Key → Str → Bool
  clock : Nat → Int
  arrivals : Nat → Key → List Str

/-- The controller of one connection together with the repository it talks to:
the transaction state (`currentValue`, `currentCommand`), the bytes written to
`c.rw.Writer`, the queue contents and open-read counter of every consumer, the
process-wide `Stats.CmdGet` counter, and the trace of collaborator calls. -/
structure State where
  currentValue : Option Str
  currentCommand : Option Command
  out : Str
  items : Key → List Str
  openReads : Key → Int
  cmdGet : Nat
  log : List Event
  clockReads : Nat
  sleeps : Nat

/-- Result of running a handler: it returned, it panicked, or its polling loop
was still running when the step budget ended. -/
inductive Outcome (α : Type) where
  | returned (a : α)
  | panicked
  | running

/-- The terminator line (`endMessage`, declared outside `get.go`). -/
def endMessage : Str := "END\r\n".toList

/-- Append one collaborator call to the trace. -/
def State.record (s : State) (e : Event) : State :=
  { s with log := s.log ++ [e] }

/-- Modelled from the spec: `Controller.setCurrentState(cmd, value)` (declared
outside `get.go`) assigns both transaction fields. -/
def setCurrentState (cmd : Option Command) (value : Option Str) (s : State) : State :=
  { s with currentCommand := cmd, currentValue := value }

/-- Modelled from the spec: `Controller.getConsumer(cmd)` (declared outside
`get.go`) resolves the handle bound to the command's queue and consumer group,
or fails. -/
def getConsumer (env : Env) (cmd : Command) (s : State) : Option Key × State :=
  let k : Key := (cmd.QueueName, cmd.ConsumerGroup)
  if env.resolveFails s.log.length k then (none, s.record (.getConsumer k))
  else (some k, s.record (.getConsumer k))

/-- Modelled from the spec: `q.GetNext()` removes and returns the head of the
consumer's queue, or returns no bytes when the queue is empty. -/
def getNext (q : Key) (s : State) : Str × State :=
  match s.items q with
  | [] => ([], s.record (.getNext q))
  | v :: rest =>
    (v, { s.record (.getNext q) with items := fun k => if k = q then rest else s.items k })

/-- Modelled from the spec: `q.Peek()` reads the head of the consumer's queue
without removing it. -/
def peekHead (q : Key) (s : State) : Str × State :=
  ((s.items q).headD [], s.record (.peek q))

/-- Modelled from the spec: `q.PutBack(value)` returns the value to the head of
the consumer's queue, or fails and leaves the queue alone. -/
def putBack (env : Env) (q : Key) (v : Str) (s : State) : Bool × State :=
  if env.putBackFails s.log.length q v then (false, s.record (.putBack q v))
  else (true, { s.record (.putBack q v) with items := fun k => if k = q then v :: s.items k else s.items k })

/-- Modelled from the spec: `q.Stats().UpdateOpenReads(delta)` adds `delta` to
the consumer's open-read counter. -/
def updateOpenReads (q : Key) (d : Int) (s : State) : State :=
  { s.record (.updateOpenReads q d) with
    openReads := fun k => if k = q then s.openReads k + d else s.openReads k }

/-- Modelled from the spec: `time.Now().UnixNano()`. -/
def now (env : Env) (s : State) : Int × State :=
  (env.clock s.clockReads, { s.record .now with clockReads := s.clockReads + 1 })

/-- Modelled from the spec: `time.Sleep`; meanwhile other connections may enqueue. -/
def sleep (env : Env) (s : State) : State :=
  { s.record .sleep with
    items := fun k => s.items k ++ env.arrivals s.sleeps k
    sleeps := s.sleeps + 1 }

/-- Two's-complement wrap-around of a 64-bit signed integer. -/
def wrap64 (x : Int) : Int := (x + 2 ^ 63) % 2 ^ 64 - 2 ^ 63

/-- The deadline of source `get`: `time.Now().UnixNano() + int64(cmd.Timeout*1000000)`. -/
def deadlineOf (t0 : Int) (timeout : Int) : Int :=
  wrap64 (t0 + wrap64 (timeout * 1000000))

/-- Go `len(b)` of a byte slice or string: the number of bytes, a character
counting for as many bytes as its UTF-8 encoding takes. -/
def byteLen (s : Str) : Nat :=
  (s.map Char.utf8Size).sum

/-- The `VALUE <queue> 0 <bytes>\r\n<data block>\r\n` response, `<bytes>` being
`len(value)`. -/
def valueMessage (queueName value : Str) : Str :=
  "VALUE ".toList ++ queueName ++ " 0 ".toList ++ (Nat.repr (byteLen value)).toList ++ "\r\n".toList
    ++ value ++ "\r\n".toList

/-- The polling loop of source `get`, for at most `fuel` dequeue attempts:
the last value fetched and the state when the loop ends. -/
def pollLoop (env : Env) (q : Key) (cmd : Command) (deadline : Int) :
    Nat → State → Option (Str × State)
  | 0, _ => none
  | fuel + 1, s =>
    match getNext q s with
    | (value, s1) =>
      if 0 < value.length then
        some (value, { s1 with out := s1.out ++ valueMessage cmd.QueueName value })
      else
        match now env s1 with
        | (t, s2) =>
          if deadline < t then some (value, s2)
          else pollLoop env q cmd deadline fuel (sleep env s2)

/-- Lines 63-81 of source `get`: compute the deadline from the clock, then poll.
The result is `none` when the loop is still running after `fuel` attempts. -/
def dequeueLoop (env : Env) (fuel : Nat) (q : Key) (cmd : Command) (s : State) :
    Option (Str × State) :=
  match now env s with
  | (t0, s1) => pollLoop env q cmd (deadlineOf t0 cmd.Timeout) fuel s1

/-- Source `Controller.get`. -/
def get (env : Env) (fuel : Nat) (cmd : Command) (s : State) : Outcome (Option Err × State) :=
  if s.currentValue.isSome then .returned (some .closeCurrentItemFirst, s)
  else
    match getConsumer env cmd s with
    | (none, s1) => .returned (some .common, s1)
    | (some q, s1) =>
      match dequeueLoop env fuel q cmd s1 with
      | none => .running
      | some (value, s3) =>
        let s4 :=
          if contains cmd.SubCommand "open".toList ∧ 0 < value.length then
            updateOpenReads q 1 (setCurrentState (some cmd) (some value) s3)
          else s3
        .returned (none, { s4 with cmdGet := (s4.cmdGet + 1) % 2 ^ 64 })

/-- Source `Controller.getClose`. -/
def getClose (env : Env) (cmd : Command) (s : State) : Option Err × State :=
  match getConsumer env cmd s with
  | (none, s1) => (some .common, s1)
  | (some q, s1) =>
    if s1.currentValue.isSome then
      (none, setCurrentState none none (updateOpenReads q (-1) s1))
    else (none, s1)

/-- Source `Controller.abort`.  With a value held but no stored command the
call to `getConsumer` dereferences a nil command and panics. -/
def abort (env : Env) (s : State) : Outcome (Option Err × State) :=
  match s.currentValue with
  | none => .returned (none, s)
  | some v =>
    match s.currentCommand with
    | none => .panicked
    | some cc =>
      match getConsumer env cc s with
      | (none, s1) => .returned (some .common, s1)
      | (some q, s1) =>
        match putBack env q v s1 with
        | (false, s2) => .returned (some .common, s2)
        | (true, s2) =>
          if s2.currentValue.isSome then
            .returned (none, setCurrentState none none (updateOpenReads q (-1) s2))
          else .returned (none, s2)

/-- Source `Controller.peek`. -/
def peek (env : Env) (cmd : Command) (s : State) : Option Err × State :=
  match getConsumer env cmd s with
  | (none, s1) => (some .common, s1)
  | (some q, s1) =>
    match peekHead q s1 with
    | (value, s2) =>
      let s3 :=
        if 0 < value.length then { s2 with out := s2.out ++ valueMessage cmd.QueueName value }
        else s2
      (none, { s3 with cmdGet := (s3.cmdGet + 1) % 2 ^ 64 })

/-- The `switch cmd.SubCommand` of source `Controller.Get`. -/
def dispatch (env : Env) (fuel : Nat) (cmd : Command) (s : State) :
    Outcome (Option Err × State) :=
  if cmd.SubCommand = [] ∨ cmd.SubCommand = "open".toList then get env fuel cmd s
  else if cmd.SubCommand = "close".toList then .returned (getClose env cmd s)
  else if cmd.SubCommand = "close/open".toList then
    match getClose env cmd s with
    | (none, s1) => get env fuel cmd s1
    | (some e, s1) => .returned (some e, s1)
  else if cmd.SubCommand = "abort".toList then abort env s
  else if cmd.SubCommand = "peek".toList then .returned (peek env cmd s)
  else .returned (some .invalidCommand, s)

/-- Source `Controller.Get`: parse, dispatch, and write the terminator when the
sub-handler returned no error. -/
def Get (env : Env) (cgSeparator : Str) (fuel : Nat) (input : List Str) (s : State) :
    Outcome (Option Err × State) :=
  match parseGetCommand cgSeparator input with
  | none => .panicked
  | some cmd =>
    match dispatch env fuel cmd s with
    | .returned (none, s1) => .returned (none, { s1 with out := s1.out ++ endMessage })
    | .returned (some e, s1) => .returned (some e, s1)
    | .panicked => .panicked
    | .running => .running
/-! ## Auxiliary definitions used in the statements -/

/-- The last two steps of `parseGetCommand` (the split at the first slash and the
split at the separator), from the command built so far and the working specifier. -/
def parseRest (cgSeparator : Str) (cmd : Command) (spec : Str) : Option Command := do
  let cmd ←
    if contains spec ['/'] then do
      let tokens := splitN spec ['/'] 2
      let t0 ← tokens[0]?
      let t1 ← tokens[1]?
      pure { cmd with QueueName := t0, SubCommand := trim t1 ['/'] }
    else pure cmd
  if contains cmd.QueueName cgSeparator then do
    let tokens := splitN cmd.QueueName cgSeparator 3
    let t0 ← tokens[0]?
    let t1 ← tokens[1]?
    pure { cmd with QueueName := t0, ConsumerGroup := t1 }
  else pure cmd

/-- A timeout fragment, `t=` followed by at least one decimal digit, occurs in `s`. -/
def hasTimeoutFragment (s : Str) : Bool :=
  match s with
  | [] => false
  | c :: cs => (timeoutMatchAt (c :: cs)).isSome || hasTimeoutFragment cs

/-- The six sub-commands of the GET grammar. -/
def subCommands : List Str :=
  ["".toList, "open".toList, "close".toList, "close/open".toList, "abort".toList, "peek".toList]


/-- An environment in which every resolution and every requeue succeeds, the
clock advances by one at each reading and no other connection enqueues. -/
def calmEnv : Env :=
  { resolveFails := fun _ _ => false
    putBackFails := fun _ _ _ => false
    clock := fun n => n
    arrivals := fun _ _ => [] }

/-- An environment in which every resolution and every requeue fails. -/
def failingEnv : Env :=
  { resolveFails := fun _ _ => true
    putBackFails := fun _ _ _ => true
    clock := fun n => n
    arrivals := fun _ _ => [] }

/-- The consumer of queue `q` in the default group. -/
def qKey : Key := ("q".toList, [])

/-- A fresh connection in front of a repository whose queue `q` holds `A` then `B`. -/
def freshState : State :=
  { currentValue := none
    currentCommand := none
    out := []
    items := fun k => if k = qKey then ["A".toList, "B".toList] else []
    openReads := fun _ => 0
    cmdGet := 0
    log := []
    clockReads := 0
    sleeps := 0 }

/-- The command parsed from `q/open`. -/
def openCmd : Command :=
  { Name := "GET".toList, QueueName := "q".toList, SubCommand := "open".toList,
    ConsumerGroup := [], Timeout := 0 }

/-- A connection holding the item `A`, opened by `q/open`, with open-read count 1. -/
def heldState : State :=
  { currentValue := some "A".toList
    currentCommand := some openCmd
    out := []
    items := fun k => if k = qKey then ["B".toList] else []
    openReads := fun k => if k = qKey then 1 else 0
    cmdGet := 1
    log := []
    clockReads := 1
    sleeps := 0 }

/-- The handle a command resolves to: its queue name and consumer group. -/
def consumerKey (cmd : Command) : Key := (cmd.QueueName, cmd.ConsumerGroup)

/-- The state a returned handler left behind (the given state otherwise). -/
def Outcome.stateD (o : Outcome (Option Err × State)) (d : State) : State :=
  match o with
  | .returned (_, s) => s
  | _ => d

/-- The error a handler returned, if it returned one. -/
def Outcome.error? (o : Outcome (Option Err × State)) : Option Err :=
  match o with
  | .returned (e, _) => e
  | _ => none

/-- The handler returned (it neither panicked nor is still polling). -/
def Outcome.isReturned (o : Outcome (Option Err × State)) : Bool :=
  match o with
  | .returned _ => true
  | _ => false

/-- The scenario of the spec on the queue `[A, B]`: the state after `GET q/open`. -/
def afterOpen : State :=
  (Get calmEnv "::".toList 1 ["GET".toList, "q/open".toList] freshState).stateD freshState

/-- The scenario continued: the state after the following `GET q/close`. -/
def afterClose : State :=
  (Get calmEnv "::".toList 1 ["GET".toList, "q/close".toList] afterOpen).stateD freshState

/-- The scenario continued: the state after the second `GET q/open`. -/
def afterReopen : State :=
  (Get calmEnv "::".toList 1 ["GET".toList, "q/open".toList] afterClose).stateD freshState

/-- The command parsed from `q/close`. -/
def closeCmd : Command :=
  { Name := "GET".toList, QueueName := "q".toList, SubCommand := "close".toList,
    ConsumerGroup := [], Timeout := 0 }

/-- The command parsed from `q/abort`. -/
def abortCmd : Command :=
  { Name := "GET".toList, QueueName := "q".toList, SubCommand := "abort".toList,
    ConsumerGroup := [], Timeout := 0 }

/-- The command parsed from `other/abort`, an abort that names another queue. -/
def otherAbortCmd : Command :=
  { Name := "GET".toList, QueueName := "other".toList, SubCommand := "abort".toList,
    ConsumerGroup := [], Timeout := 0 }

/-- The transaction state is well formed: both fields absent, or both present
with a non-empty value. -/
def TransactionInv (s : State) : Prop :=
  (s.currentValue = none ∧ s.currentCommand = none) ∨
    ∃ v c, s.currentValue = some v ∧ s.currentCommand = some c ∧ v ≠ []

/-- States a connection can be in: it starts with no value and no command held
(in front of any repository) and moves by `Get` calls that return, with or
without error, whatever the environment and the input. -/
inductive Reachable : State → Prop where
  | start (s : State) (hv : s.currentValue = none) (hc : s.currentCommand = none) : Reachable s
  | step (env : Env) (sep : Str) (fuel : Nat) (input : List Str) (s t : State) (e : Option Err)
      (hs : Reachable s) (hg : Get env sep fuel input s = .returned (e, t)) : Reachable t

/-- The command parsed from `q/peek`. -/
def peekCmd : Command :=
  { Name := "GET".toList, QueueName := "q".toList, SubCommand := "peek".toList,
    ConsumerGroup := [], Timeout := 0 }

/-- The GET resolves its consumer and obtains `V` (no bytes when nothing is
available): by the polling loop of an open-get (empty sub-command, `open`, or
`close/open` after a successful close phase), or by `Peek` for `peek`. -/
def Obtains (env : Env) (fuel : Nat) (cmd : Command) (s : State) (V : Str) : Prop :=
  ((cmd.SubCommand = [] ∨ cmd.SubCommand = "open".toList) ∧ s.currentValue = none ∧
    env.resolveFails s.log.length (consumerKey cmd) = false ∧
    ∃ s3, dequeueLoop env fuel (consumerKey cmd) cmd
      (s.record (.getConsumer (consumerKey cmd))) = some (V, s3)) ∨
  (cmd.SubCommand = "close/open".toList ∧
    ∃ s0, getClose env cmd s = (none, s0) ∧
      env.resolveFails s0.log.length (consumerKey cmd) = false ∧
      ∃ s3, dequeueLoop env fuel (consumerKey cmd) cmd
        (s0.record (.getConsumer (consumerKey cmd))) = some (V, s3)) ∨
  (cmd.SubCommand = "peek".toList ∧
    env.resolveFails s.log.length (consumerKey cmd) = false ∧
    V = (s.items (consumerKey cmd)).headD [])

/-- An environment whose clock advances by one second at each reading. -/
def secondsEnv : Env :=
  { resolveFails := fun _ _ => false
    putBackFails := fun _ _ _ => false
    clock := fun n => n * 1000000000
    arrivals := fun _ _ => [] }

/-- A fresh connection in front of a repository whose queues are all empty. -/
def emptyState : State :=
  { currentValue := none
    currentCommand := none
    out := []
    items := fun _ => []
    openReads := fun _ => 0
    cmdGet := 0
    log := []
    clockReads := 0
    sleeps := 0 }

/-- The command parsed from `q/t=100`. -/
def timedCmd : Command :=
  { Name := "GET".toList, QueueName := "q".toList, SubCommand := [],
    ConsumerGroup := [], Timeout := 100 }

/-- The command parsed from `q/bogus`. -/
def bogusCmd : Command :=
  { Name := "GET".toList, QueueName := "q".toList, SubCommand := "bogus".toList,
    ConsumerGroup := [], Timeout := 0 }

/-- An environment whose clock gives the same reading twice before it advances
(readings 0, 0, 2, 3, ...: non-decreasing). -/
def stutterEnv : Env :=
  { resolveFails := fun _ _ => false
    putBackFails := fun _ _ _ => false
    clock := fun n => if n ≤ 1 then 0 else n
    arrivals := fun _ _ => [] }

/-- The command parsed from the bare specifier `q`. -/
def plainCmd : Command :=
  { Name := "GET".toList, QueueName := "q".toList, SubCommand := [],
    ConsumerGroup := [], Timeout := 0 }

/-- The consumer of queue `other` in the default group. -/
def otherKey : Key := ("other".toList, [])

/-- The scenario with a close that names another queue: the state after
`GET q/open` then `GET other/close`. -/
def afterOtherClose : State :=
  (Get calmEnv "::".toList 1 ["GET".toList, "other/close".toList] afterOpen).stateD freshState

/-- The open-read counters agree with the transaction state: 1 for the consumer
of the stored command while a value is held, 0 for every other consumer. -/
def CountersTrack (s : State) : Prop :=
  (s.currentValue = none → ∀ k, s.openReads k = 0) ∧
  (∀ v c, s.currentValue = some v → s.currentCommand = some c →
    s.openReads (consumerKey c) = 1 ∧ ∀ k, k ≠ consumerKey c → s.openReads k = 0)

/-- States reached from a fresh connection (nothing held, every counter 0) by
returning `Get` calls in which every `close` or `close/open` issued while a
value is held names the consumer of the stored command. -/
inductive ReachableOwnClose : State → Prop where
  | start (s : State) (hv : s.currentValue = none) (hc : s.currentCommand = none)
      (h0 : ∀ k, s.openReads k = 0) : ReachableOwnClose s
  | step (env : Env) (sep : Str) (fuel : Nat) (input : List Str) (s t : State) (e : Option Err)
      (cmd : Command) (hs : ReachableOwnClose s) (hp : parseGetCommand sep input = some cmd)
      (hown : ∀ v c, s.currentValue = some v → s.currentCommand = some c →
        (cmd.SubCommand = "close".toList ∨ cmd.SubCommand = "close/open".toList) →
        consumerKey cmd = consumerKey c)
      (hg : Get env sep fuel input s = .returned (e, t)) : ReachableOwnClose t

/-- The consumer of the queue literally named `foot=5`, default group. -/
def fragmentKey : Key := ("foot=5".toList, [])

/-- The consumer of the queue literally named `qt=5/open`, default group. -/
def slashKey : Key := ("qt=5/open".toList, [])

/-- A fresh connection in front of a repository in which the queues named
`foot=5` and `qt=5/open` each hold the item `A`. -/
def fragmentState : State :=
  { currentValue := none
    currentCommand := none
    out := []
    items := fun k => if k = fragmentKey ∨ k = slashKey then ["A".toList] else []
    openReads := fun _ => 0
    cmdGet := 0
    log := []
    clockReads := 0
    sleeps := 0 }

/-! # Theorems -/


/-! ## Lemmas on the string primitives -/

theorem contains_cons (c : Char) (cs sub : Str) :
    contains (c :: cs) sub = (sub.isPrefixOf (c :: cs) || contains cs sub) := rfl

theorem contains_append_right (a b sub : Str) (h : contains b sub = true) :
    contains (a ++ b) sub = true := by
  induction a with
  | nil => simpa using h
  | cons c cs ih => simp [contains_cons, ih]

theorem contains_singleton (q : Str) (c : Char) : contains q [c] = true ↔ c ∈ q := by
  induction q with
  | nil => simp [contains]
  | cons d ds ih => simp [contains_cons, List.isPrefixOf, ih]

theorem contains_singleton_false (q : Str) (c : Char) : contains q [c] = false ↔ c ∉ q := by
  rw [← contains_singleton]; simp

/-- The text `t=` does not start at the head of `q ++ x` when `q` is non-empty
and free of `t=` and no `t=` is formed across the junction with `x`. -/
theorem isPrefixOf_tEq_append (c : Char) (cs x : Str)
    (hq : contains (c :: cs) ['t', '='] = false)
    (hj : (c :: cs).getLast? = some 't' → x.head? = some '=' → False) :
    List.isPrefixOf ['t', '='] (c :: cs ++ x) = false := by
  cases cs with
  | nil =>
    cases x with
    | nil => simp [List.isPrefixOf]
    | cons d ds =>
      by_contra hne
      simp [List.isPrefixOf] at hne
      exact hj (by simp [← hne.1]) (by simp [← hne.2])
  | cons d ds =>
    simp [contains_cons, List.isPrefixOf] at hq
    simp [List.isPrefixOf]
    exact hq.1

/-- No match of the timeout pattern starts inside `q` under the same conditions. -/
theorem timeoutMatchAt_append_none (c : Char) (cs x : Str)
    (hq : contains (c :: cs) ['t', '='] = false)
    (hj : (c :: cs).getLast? = some 't' → x.head? = some '=' → False) :
    timeoutMatchAt (c :: cs ++ x) = none := by
  simp only [timeoutMatchAt, isPrefixOf_tEq_append c cs x hq hj, Bool.false_eq_true, if_false]

theorem junction_tail (c : Char) (cs x : Str)
    (hj : (c :: cs).getLast? = some 't' → x.head? = some '=' → False) :
    cs.getLast? = some 't' → x.head? = some '=' → False := by
  cases cs with
  | nil => simp
  | cons d ds => simpa [List.getLast?_cons_cons] using hj

theorem contains_tEq_append_eq (q x : Str) (hq : contains q ['t', '='] = false)
    (hj : q.getLast? = some 't' → x.head? = some '=' → False) :
    contains (q ++ x) ['t', '='] = contains x ['t', '='] := by
  induction q with
  | nil => rfl
  | cons c cs ih =>
    have hcs : contains cs ['t', '='] = false := by
      simp [contains_cons] at hq; exact hq.2
    have h := isPrefixOf_tEq_append c cs x hq hj
    rw [List.cons_append] at h ⊢
    rw [contains_cons, h, ih hcs (junction_tail c cs x hj)]
    rfl

theorem findStringSubmatch_append (q x : Str) (hq : contains q ['t', '='] = false)
    (hj : q.getLast? = some 't' → x.head? = some '=' → False) :
    findStringSubmatch (q ++ x) = findStringSubmatch x := by
  induction q with
  | nil => rfl
  | cons c cs ih =>
    have hcs : contains cs ['t', '='] = false := by
      simp [contains_cons] at hq; exact hq.2
    have h := timeoutMatchAt_append_none c cs x hq hj
    rw [List.cons_append] at h ⊢
    simp only [findStringSubmatch, h]
    exact ih hcs (junction_tail c cs x hj)

theorem replaceAllAux_append (q x : Str) (hq : contains q ['t', '='] = false)
    (hj : q.getLast? = some 't' → x.head? = some '=' → False) :
    replaceAllAux 0 (q ++ x) = q ++ replaceAllAux 0 x := by
  induction q with
  | nil => rfl
  | cons c cs ih =>
    have hcs : contains cs ['t', '='] = false := by
      simp [contains_cons] at hq; exact hq.2
    have h := timeoutMatchAt_append_none c cs x hq hj
    rw [List.cons_append] at h ⊢
    simp only [replaceAllAux, h]
    rw [ih hcs (junction_tail c cs x hj)]
    rfl

theorem replaceAllAux_skip (xs ys : Str) :
    replaceAllAux xs.length (xs ++ ys) = replaceAllAux 0 ys := by
  induction xs with
  | nil => rfl
  | cons c cs ih => simpa [replaceAllAux] using ih

theorem replaceAllAux_skip_eq (k : Nat) (xs ys : Str) (h : xs.length = k) :
    replaceAllAux k (xs ++ ys) = replaceAllAux 0 ys := by
  subst h; exact replaceAllAux_skip xs ys

theorem replaceAllAux_none (c : Char) (cs : Str) (h : timeoutMatchAt (c :: cs) = none) :
    replaceAllAux 0 (c :: cs) = c :: replaceAllAux 0 cs := by
  simp only [replaceAllAux, h]

theorem replaceAllAux_some (c : Char) (cs digits slash : Str)
    (h : timeoutMatchAt (c :: cs) = some (digits, slash)) :
    replaceAllAux 0 (c :: cs) = replaceAllAux (1 + digits.length + slash.length) cs := by
  simp only [replaceAllAux, h]

theorem replaceAllString_of_not_contains (q : Str) (hq : contains q ['t', '='] = false) :
    replaceAllString q = q := by
  have h := replaceAllAux_append q [] hq (by simp)
  simpa [replaceAllString, replaceAllAux] using h

theorem takeWhile_digits_append (N tail : Str) (hd : N.all Char.isDigit = true)
    (ht : ∀ c, tail.head? = some c → c.isDigit = false) :
    List.takeWhile Char.isDigit (N ++ tail) = N := by
  induction N with
  | nil =>
    cases tail with
    | nil => rfl
    | cons t ts => simp [List.takeWhile, ht t rfl]
  | cons n ns ih =>
    simp only [List.all_cons, Bool.and_eq_true] at hd
    simp [List.takeWhile, hd.1, ih hd.2]

theorem dropWhile_digits_append (N tail : Str) (hd : N.all Char.isDigit = true)
    (ht : ∀ c, tail.head? = some c → c.isDigit = false) :
    List.dropWhile Char.isDigit (N ++ tail) = tail := by
  induction N with
  | nil =>
    cases tail with
    | nil => rfl
    | cons t ts => simp [List.dropWhile, ht t rfl]
  | cons n ns ih =>
    simp only [List.all_cons, Bool.and_eq_true] at hd
    simp [List.dropWhile, hd.1, ih hd.2]

/-- The pattern matches a fragment `t=N` followed by text that does not start with a digit. -/
theorem timeoutMatchAt_fragment (N tail : Str) (hN : N ≠ []) (hd : N.all Char.isDigit = true)
    (ht : ∀ c, tail.head? = some c → c.isDigit = false) :
    timeoutMatchAt ('t' :: '=' :: (N ++ tail)) =
      some (N, if tail.head? = some '/' then ['/'] else []) := by
  simp [timeoutMatchAt, List.isPrefixOf, takeWhile_digits_append N tail hd ht,
    dropWhile_digits_append N tail hd ht, hN]


theorem contains_nil_right (b : Str) : contains b [] = true := by
  cases b <;> simp [contains, List.isPrefixOf]

theorem contains_of_leading (sep b : Str) : contains (sep ++ b) sep = true := by
  cases sep with
  | nil => exact contains_nil_right _
  | cons c cs =>
    have h : List.isPrefixOf (c :: cs) (c :: cs ++ b) = true := by
      rw [List.isPrefixOf_iff_prefix]; exact List.prefix_append _ _
    rw [List.cons_append] at h ⊢
    simp [contains_cons, h]

theorem contains_append_sep (q sep b : Str) : contains (q ++ sep ++ b) sep = true := by
  rw [List.append_assoc]
  exact contains_append_right _ _ _ (contains_of_leading sep b)

theorem cut_cons (c : Char) (cs sep : Str) :
    cut (c :: cs) sep =
      if sep.isPrefixOf (c :: cs) then some ([], (c :: cs).drop sep.length)
      else match cut cs sep with
        | some (a, b) => some (c :: a, b)
        | none => none := rfl

theorem cut_leading (sep b : Str) (hsep : sep ≠ []) : cut (sep ++ b) sep = some ([], b) := by
  cases sep with
  | nil => exact absurd rfl hsep
  | cons c cs =>
    have h : List.isPrefixOf (c :: cs) (c :: cs ++ b) = true := by
      rw [List.isPrefixOf_iff_prefix]; exact List.prefix_append _ _
    rw [List.cons_append] at h ⊢
    simp [cut, h]

theorem isPrefixOf_cons_false (sep : Str) (c : Char) (cs : Str) (hsep : sep ≠ [])
    (hc : c ∉ sep) : List.isPrefixOf sep (c :: cs) = false := by
  cases sep with
  | nil => exact absurd rfl hsep
  | cons d ds =>
    simp only [List.mem_cons, not_or] at hc
    simp [List.isPrefixOf, Ne.symm hc.1]

/-- The first occurrence of the separator follows a text free of its characters. -/
theorem cut_append_sep (q sep b : Str) (hsep : sep ≠ []) (hq : ∀ c ∈ q, c ∉ sep) :
    cut (q ++ sep ++ b) sep = some (q, b) := by
  induction q with
  | nil => simpa using cut_leading sep b hsep
  | cons c cs ih =>
    have h1 := isPrefixOf_cons_false sep c (cs ++ sep ++ b) hsep (hq c (by simp))
    have h2 := ih (fun d hd => hq d (by simp [hd]))
    rw [List.cons_append, List.cons_append, cut_cons, h1, h2]
    simp

theorem cut_none (g sep : Str) (hsep : sep ≠ []) (hg : ∀ c ∈ g, c ∉ sep) :
    cut g sep = none := by
  induction g with
  | nil => cases sep with
    | nil => exact absurd rfl hsep
    | cons d ds => simp [cut]
  | cons c cs ih =>
    have h1 := isPrefixOf_cons_false sep c cs hsep (hg c (by simp))
    have h2 := ih (fun d hd => hg d (by simp [hd]))
    rw [cut_cons, h1, h2]
    simp

theorem not_mem_of_contains_false (q : Str) (c : Char) (h : contains q [c] = false) :
    ∀ d ∈ q, d ∉ [c] := by
  intro d hd hdc
  rw [contains_singleton_false] at h
  simp at hdc
  exact h (hdc ▸ hd)

/-- Splitting `q/s` at the first slash. -/
theorem splitN_slash (q s : Str) (hq : contains q ['/'] = false) :
    splitN (q ++ '/' :: s) ['/'] 2 = [q, s] := by
  have hc : cut (q ++ ['/'] ++ s) ['/'] = some (q, s) :=
    cut_append_sep q ['/'] s (by simp) (not_mem_of_contains_false q '/' hq)
  have hl : min 2 ((q ++ '/' :: s).length + 1) - 1 = 1 := by
    simp only [List.length_append, List.length_cons]; omega
  simp only [List.append_assoc, List.singleton_append] at hc
  unfold splitN
  rw [if_neg (by decide), if_neg (by simp), hl]
  simp [genSplitLoop, hc]

theorem atoi_digits (N : Str) (hN : N ≠ []) (hd : N.all Char.isDigit = true)
    (hfit : (decimalValue N : Int) ≤ maxInt) : atoi N = ((decimalValue N : Int), true) := by
  cases N with
  | nil => exact absurd rfl hN
  | cons n ns =>
    have hn : n.isDigit = true := by
      simp only [List.all_cons, Bool.and_eq_true] at hd; exact hd.1
    have h1 : n ≠ '-' := by rintro rfl; revert hn; decide
    have h2 : n ≠ '+' := by rintro rfl; revert hn; decide
    simp [atoi, h1, h2, hd, not_lt.mpr hfit]


theorem subCommand_facts (s : Str) (hs : s ∈ subCommands) :
    contains s ['t', '='] = false ∧ trim s ['/'] = s ∧ contains s ['/', 't'] = false := by
  simp only [subCommands, List.mem_cons, List.mem_singleton, List.not_mem_nil, or_false] at hs
  rcases hs with h | h | h | h | h | h <;> subst h <;> decide

theorem find_wellFormed (q N tail : Str) (hq : contains q ['t', '='] = false)
    (hN : N ≠ []) (hd : N.all Char.isDigit = true)
    (ht : ∀ c, tail.head? = some c → c.isDigit = false) :
    (findStringSubmatch (q ++ '/' :: 't' :: '=' :: (N ++ tail)))[2]? = some N := by
  rw [findStringSubmatch_append q _ hq (by simp)]
  have h0 : timeoutMatchAt ('/' :: 't' :: '=' :: (N ++ tail)) = none := by
    simp [timeoutMatchAt, List.isPrefixOf]
  simp [findStringSubmatch, h0, timeoutMatchAt_fragment N tail hN hd ht]

theorem replace_wellFormed_slash (q N s : Str) (hq : contains q ['t', '='] = false)
    (hN : N ≠ []) (hd : N.all Char.isDigit = true) (hs : contains s ['t', '='] = false) :
    replaceAllString (q ++ '/' :: 't' :: '=' :: (N ++ '/' :: s)) = q ++ '/' :: s := by
  unfold replaceAllString
  rw [replaceAllAux_append q _ hq (by simp)]
  have h0 : timeoutMatchAt ('/' :: 't' :: '=' :: (N ++ '/' :: s)) = none := by
    simp [timeoutMatchAt, List.isPrefixOf]
  have h1 := timeoutMatchAt_fragment N ('/' :: s) hN hd (by simp)
  have h2 : replaceAllAux (1 + N.length + 1) ('=' :: (N ++ '/' :: s)) = replaceAllAux 0 s := by
    have := replaceAllAux_skip_eq (1 + N.length + 1) ('=' :: (N ++ ['/'])) s (by simp; omega)
    simpa using this
  have h3 : replaceAllAux 0 s = s := replaceAllString_of_not_contains s hs
  simp only [List.head?_cons, if_true] at h1
  rw [replaceAllAux_none _ _ h0, replaceAllAux_some _ _ _ _ h1]
  simp only [List.length_singleton]
  rw [h2, h3]

theorem replace_wellFormed_end (q N : Str) (hq : contains q ['t', '='] = false)
    (hN : N ≠ []) (hd : N.all Char.isDigit = true) :
    replaceAllString (q ++ '/' :: 't' :: '=' :: N) = q ++ ['/'] := by
  unfold replaceAllString
  rw [replaceAllAux_append q _ hq (by simp)]
  have h0 : timeoutMatchAt ('/' :: 't' :: '=' :: N) = none := by
    simp [timeoutMatchAt, List.isPrefixOf]
  have h1 := timeoutMatchAt_fragment N [] hN hd (by simp)
  have h2 : replaceAllAux (1 + N.length + 0) ('=' :: N) = [] := by
    have := replaceAllAux_skip_eq (1 + N.length + 0) ('=' :: N) [] (by simp; omega)
    simpa [replaceAllAux] using this
  simp only [List.append_nil, List.head?_nil] at h1
  rw [if_neg (by simp)] at h1
  rw [replaceAllAux_none _ _ h0, replaceAllAux_some _ _ _ _ h1]
  simp only [List.length_nil]
  rw [h2]

theorem contains_slash_mid (q s : Str) : contains (q ++ '/' :: s) ['/'] = true := by
  rw [contains_singleton]; simp

theorem contains_tEq_slash (q s : Str) (hq : contains q ['t', '='] = false)
    (hs : contains s ['t', '='] = false) : contains (q ++ '/' :: s) ['t', '='] = false := by
  induction q with
  | nil => simpa [contains_cons, List.isPrefixOf] using hs
  | cons c cs ih =>
    simp only [contains_cons, Bool.or_eq_false_iff] at hq
    have hp : List.isPrefixOf ['t', '='] (c :: (cs ++ '/' :: s)) = false := by
      cases cs with
      | nil => simp [List.isPrefixOf]
      | cons d ds => simpa [List.isPrefixOf] using hq.1
    rw [List.cons_append, contains_cons, hp, ih hq.2]
    rfl

/-- Parsing `q/s`, a specifier without a timeout. -/
theorem parse_plain (sep v q s : Str) (hq1 : contains q ['/'] = false)
    (hq2 : contains q ['t', '='] = false) (hq3 : contains q sep = false)
    (hs1 : contains s ['t', '='] = false) (hs2 : trim s ['/'] = s) :
    parseGetCommand sep [v, q ++ '/' :: s] =
      some { Name := v, QueueName := q, SubCommand := s, ConsumerGroup := [], Timeout := 0 } := by
  simp [parseGetCommand, contains_tEq_slash q s hq2 hs1, contains_slash_mid, splitN_slash q s hq1,
    hs2, hq3]

/-- Parsing `q/t=N/s`. -/
theorem parse_timeout_slash (sep v q N s : Str) (hq1 : contains q ['/'] = false)
    (hq2 : contains q ['t', '='] = false) (hq3 : contains q sep = false)
    (hN : N ≠ []) (hd : N.all Char.isDigit = true) (hfit : (decimalValue N : Int) ≤ maxInt)
    (hs1 : contains s ['t', '='] = false) (hs2 : trim s ['/'] = s) :
    parseGetCommand sep [v, q ++ '/' :: 't' :: '=' :: (N ++ '/' :: s)] =
      some { Name := v, QueueName := q, SubCommand := s, ConsumerGroup := [],
             Timeout := decimalValue N } := by
  have hc : contains (q ++ '/' :: 't' :: '=' :: (N ++ '/' :: s)) ['t', '='] = true :=
    contains_append_right _ _ _ (by simp [contains_cons, List.isPrefixOf])
  simp [parseGetCommand, hc, find_wellFormed q N ('/' :: s) hq2 hN hd (by simp),
    replace_wellFormed_slash q N s hq2 hN hd hs1, contains_slash_mid, splitN_slash q s hq1, hs2,
    hq3, atoi_digits N hN hd hfit]

/-- Parsing `q/t=N`. -/
theorem parse_timeout_end (sep v q N : Str) (hq1 : contains q ['/'] = false)
    (hq2 : contains q ['t', '='] = false) (hq3 : contains q sep = false)
    (hN : N ≠ []) (hd : N.all Char.isDigit = true) (hfit : (decimalValue N : Int) ≤ maxInt) :
    parseGetCommand sep [v, q ++ '/' :: 't' :: '=' :: N] =
      some { Name := v, QueueName := q, SubCommand := [], ConsumerGroup := [],
             Timeout := decimalValue N } := by
  have hc : contains (q ++ '/' :: 't' :: '=' :: N) ['t', '='] = true :=
    contains_append_right _ _ _ (by simp [contains_cons, List.isPrefixOf])
  have hf := find_wellFormed q N [] hq2 hN hd (by simp)
  rw [List.append_nil] at hf
  have hsp := splitN_slash q [] hq1
  have htr : trim [] ['/'] = [] := by decide
  simp [parseGetCommand, hc, hf, replace_wellFormed_end q N hq2 hN hd, contains_slash_mid, hsp, htr,
    hq3, atoi_digits N hN hd hfit]

/-- Parsing a bare queue name. -/
theorem parse_bare (sep v q : Str) (hq1 : contains q ['/'] = false)
    (hq2 : contains q ['t', '='] = false) (hq3 : contains q sep = false) :
    parseGetCommand sep [v, q] =
      some { Name := v, QueueName := q, SubCommand := [], ConsumerGroup := [], Timeout := 0 } := by
  simp [parseGetCommand, hq1, hq2, hq3]


/-! ## Consumer groups -/

theorem contains_tEq_of_not_mem (s : Str) (h : 't' ∉ s) : contains s ['t', '='] = false := by
  induction s with
  | nil => rfl
  | cons c cs ih =>
    simp only [List.mem_cons, not_or] at h
    rw [contains_cons, ih h.2]
    simp [List.isPrefixOf, h.1]

theorem contains_slash_append (p x : Str) (hp : '/' ∉ p) :
    contains (p ++ x) ['/'] = contains x ['/'] := by
  rw [Bool.eq_iff_iff, contains_singleton, contains_singleton]
  simp [hp]

theorem cut_slash_append (p x : Str) (hp : '/' ∉ p) :
    cut (p ++ x) ['/'] = (cut x ['/']).map (fun ab => (p ++ ab.1, ab.2)) := by
  induction p with
  | nil => cases h : cut x ['/'] <;> simp [h]
  | cons c cs ih =>
    simp only [List.mem_cons, not_or] at hp
    have h1 : List.isPrefixOf ['/'] (c :: (cs ++ x)) = false := by
      simp [List.isPrefixOf, hp.1]
    rw [List.cons_append, cut_cons, h1, ih hp.2]
    cases h : cut x ['/'] <;> simp [h]

theorem cut_isSome_of_contains (s : Str) (c : Char) (h : contains s [c] = true) :
    ∃ a b, cut s [c] = some (a, b) := by
  induction s with
  | nil => simp [contains] at h
  | cons d ds ih =>
    rw [cut_cons]
    by_cases hp : List.isPrefixOf [c] (d :: ds) = true
    · exact ⟨_, _, by rw [if_pos hp]⟩
    · rw [if_neg hp]
      have hp2 : List.isPrefixOf [c] (d :: ds) = false := Bool.eq_false_iff.mpr hp
      rw [contains_cons, hp2] at h
      obtain ⟨a, b, hab⟩ := ih (by simpa using h)
      exact ⟨d :: a, b, by rw [hab]⟩

/-- Splitting `q sep g` at the separator. -/
theorem splitN_group_two (q sep g : Str) (hsep : sep ≠ []) (hq : ∀ c ∈ q, c ∉ sep)
    (hg : ∀ c ∈ g, c ∉ sep) : splitN (q ++ sep ++ g) sep 3 = [q, g] := by
  have hc1 := cut_append_sep q sep g hsep hq
  have hc2 := cut_none g sep hsep hg
  have hl : 0 < sep.length := List.length_pos.mpr hsep
  have hn : ∃ n, min 3 ((q ++ sep ++ g).length + 1) - 1 = n + 1 := by
    refine ⟨min 3 ((q ++ sep ++ g).length + 1) - 2, ?_⟩
    simp only [List.length_append]; omega
  obtain ⟨n, hn⟩ := hn
  unfold splitN
  rw [if_neg (by decide), if_neg (by simpa using hsep), hn]
  cases n with
  | zero => simp only [genSplitLoop, hc1]
  | succ m => simp only [genSplitLoop, hc1, hc2]

/-- Splitting `q sep g sep x` at the separator: the third piece takes the rest. -/
theorem splitN_group_three (q sep g x : Str) (hsep : sep ≠ []) (hq : ∀ c ∈ q, c ∉ sep)
    (hg : ∀ c ∈ g, c ∉ sep) : splitN (q ++ sep ++ g ++ sep ++ x) sep 3 = [q, g, x] := by
  have hc1 : cut (q ++ sep ++ g ++ sep ++ x) sep = some (q, g ++ sep ++ x) := by
    have := cut_append_sep q sep (g ++ sep ++ x) hsep hq
    simpa [List.append_assoc] using this
  have hc2 := cut_append_sep g sep x hsep hg
  have hl : 0 < sep.length := List.length_pos.mpr hsep
  have hn : min 3 ((q ++ sep ++ g ++ sep ++ x).length + 1) - 1 = 2 := by
    simp only [List.length_append]; omega
  unfold splitN
  rw [if_neg (by decide), if_neg (by simpa using hsep), hn]
  simp only [genSplitLoop, hc1, hc2]

/-- The text `q sep g` is free of `t=` when its parts are and the separator has
neither a `t` nor an `=`. -/
theorem contains_tEq_group (q sep g : Str) (hsep : sep ≠ [])
    (hs : ∀ c ∈ sep, c ≠ '/' ∧ c ≠ 't' ∧ c ≠ '=')
    (hq : contains q ['t', '='] = false) (hg : contains g ['t', '='] = false) :
    contains (q ++ sep ++ g) ['t', '='] = false ∧
      ((q ++ sep).getLast? = some 't' → False) := by
  have hst : 't' ∉ sep := fun h => (hs _ h).2.1 rfl
  have hlast : (q ++ sep).getLast? = some 't' → False := by
    rw [List.getLast?_append_of_ne_nil _ hsep]
    intro h
    exact hst (List.mem_of_getLast?_eq_some h)
  have h1 : contains (q ++ sep) ['t', '='] = false := by
    rw [contains_tEq_append_eq q sep hq]
    · exact contains_tEq_of_not_mem sep hst
    · intro _ h
      exact (hs _ (List.mem_of_mem_head? h)).2.2 rfl
  refine ⟨?_, hlast⟩
  rw [contains_tEq_append_eq (q ++ sep) g h1 (fun h _ => hlast h)]
  exact hg

/-- Parsing `q sep g`: queue name `q`, consumer group `g`. -/
theorem parse_group_two (sep v q g : Str) (hsep : sep ≠ [])
    (hs : ∀ c ∈ sep, c ≠ '/' ∧ c ≠ 't' ∧ c ≠ '=')
    (hq : ∀ c ∈ q, c ∉ sep) (hg : ∀ c ∈ g, c ∉ sep)
    (hq1 : contains q ['/'] = false) (hg1 : contains g ['/'] = false)
    (hq2 : contains q ['t', '='] = false) (hg2 : contains g ['t', '='] = false) :
    parseGetCommand sep [v, q ++ sep ++ g] =
      some { Name := v, QueueName := q, SubCommand := [], ConsumerGroup := g, Timeout := 0 } := by
  have ht := (contains_tEq_group q sep g hsep hs hq2 hg2).1
  have hsl : contains (q ++ sep ++ g) ['/'] = false := by
    rw [contains_singleton_false] at hq1 hg1 ⊢
    simp only [List.mem_append, not_or]
    exact ⟨⟨hq1, fun h => (hs _ h).1 rfl⟩, hg1⟩
  have hcs := contains_append_sep q sep g
  have hsp := splitN_group_two q sep g hsep hq hg
  simp only [List.append_assoc] at ht hsl hcs hsp
  simp [parseGetCommand, ht, hsl, hcs, hsp]


theorem parseGetCommand_cons (sep v spec : Str) (rest : List Str) :
    parseGetCommand sep (v :: spec :: rest) =
      if contains spec ['t', '='] then
        match (findStringSubmatch spec)[2]? with
        | none => none
        | some d =>
          parseRest sep
            { Name := v, QueueName := spec, SubCommand := [], ConsumerGroup := [],
              Timeout := (atoi d).1 } (replaceAllString spec)
      else
        parseRest sep
          { Name := v, QueueName := spec, SubCommand := [], ConsumerGroup := [], Timeout := 0 } spec := by
  by_cases h : contains spec ['t', '='] = true
  · cases hf : (findStringSubmatch spec)[2]? with
    | none => simp [parseGetCommand, h, hf]
    | some d => simp [parseGetCommand, parseRest, h, hf]
  · simp [parseGetCommand, parseRest, h]

theorem findStringSubmatch_shape (s : Str) :
    findStringSubmatch s = [] ∨ ∃ w d sl, findStringSubmatch s = [w, ['t', '='], d, sl] := by
  induction s with
  | nil => exact Or.inl rfl
  | cons c cs ih =>
    cases h : timeoutMatchAt (c :: cs) with
    | none => simpa [findStringSubmatch, h] using ih
    | some p => exact Or.inr ⟨['t', '='] ++ p.1 ++ p.2, p.1, p.2, by simp [findStringSubmatch, h]⟩

/-- The last two parsing steps on `q sep g sep r`: whatever follows the second
separator, the queue name is `q` and the consumer group is `g`. -/
theorem parseRest_group (sep q g r0 r1 : Str) (cmd : Command)
    (hcmd : cmd.QueueName = q ++ sep ++ g ++ sep ++ r0) (hsep : sep ≠ [])
    (hs : ∀ c ∈ sep, c ≠ '/' ∧ c ≠ 't' ∧ c ≠ '=')
    (hq : ∀ c ∈ q, c ∉ sep) (hg : ∀ c ∈ g, c ∉ sep)
    (hq1 : contains q ['/'] = false) (hg1 : contains g ['/'] = false) :
    ∃ cmd2, parseRest sep cmd (q ++ sep ++ g ++ sep ++ r1) = some cmd2 ∧ cmd2.Name = cmd.Name ∧
      cmd2.QueueName = q ∧ cmd2.ConsumerGroup = g ∧ cmd2.Timeout = cmd.Timeout := by
  have hP : '/' ∉ q ++ sep ++ g ++ sep := by
    rw [contains_singleton_false] at hq1 hg1
    simp only [List.mem_append, not_or]
    exact ⟨⟨⟨hq1, fun h => (hs _ h).1 rfl⟩, hg1⟩, fun h => (hs _ h).1 rfl⟩
  have hgrp : ∀ x : Str, contains (q ++ sep ++ g ++ sep ++ x) sep = true ∧
      splitN (q ++ sep ++ g ++ sep ++ x) sep 3 = [q, g, x] := fun x =>
    ⟨by
      have := contains_append_sep q sep (g ++ sep ++ x)
      simpa [List.append_assoc] using this,
     splitN_group_three q sep g x hsep hq hg⟩
  by_cases hc : contains r1 ['/'] = true
  · obtain ⟨a, b, hab⟩ := cut_isSome_of_contains r1 '/' hc
    have hcut : cut (q ++ sep ++ g ++ sep ++ r1) ['/'] = some (q ++ sep ++ g ++ sep ++ a, b) := by
      rw [cut_slash_append _ r1 hP, hab]; rfl
    have hl : 0 < sep.length := List.length_pos.mpr hsep
    have hn : min 2 ((q ++ sep ++ g ++ sep ++ r1).length + 1) - 1 = 1 := by
      simp only [List.length_append]; omega
    have hsp : splitN (q ++ sep ++ g ++ sep ++ r1) ['/'] 2 = [q ++ sep ++ g ++ sep ++ a, b] := by
      unfold splitN
      rw [if_neg (by decide), if_neg (by simp), hn]
      simp only [genSplitLoop, hcut]
    have hc2 : contains (q ++ sep ++ g ++ sep ++ r1) ['/'] = true := by
      rw [contains_slash_append _ r1 hP]; exact hc
    refine ⟨{ cmd with QueueName := q, SubCommand := trim b ['/'], ConsumerGroup := g }, ?_, rfl,
      rfl, rfl, rfl⟩
    have hA := hgrp a
    simp only [List.append_assoc] at hA hsp hc2 ⊢
    simp [parseRest, hc2, hsp, hA.1, hA.2]
  · have hc2 : contains (q ++ sep ++ g ++ sep ++ r1) ['/'] = false := by
      rw [contains_slash_append _ r1 hP]; simpa using hc
    refine ⟨{ cmd with QueueName := q, ConsumerGroup := g }, ?_, rfl, rfl, rfl, rfl⟩
    have hA := hgrp r0
    simp only [List.append_assoc] at hA hcmd hc2 ⊢
    simp [parseRest, hc2, hcmd, hA.1, hA.2]


theorem group_prefix_facts (q sep g : Str) (hsep : sep ≠ [])
    (hs : ∀ c ∈ sep, c ≠ '/' ∧ c ≠ 't' ∧ c ≠ '=')
    (hq2 : contains q ['t', '='] = false) (hg2 : contains g ['t', '='] = false) :
    contains (q ++ sep ++ g ++ sep) ['t', '='] = false ∧
      ((q ++ sep ++ g ++ sep).getLast? = some 't' → False) := by
  have hst : 't' ∉ sep := fun h => (hs _ h).2.1 rfl
  have hlast : (q ++ sep ++ g ++ sep).getLast? = some 't' → False := by
    rw [List.getLast?_append_of_ne_nil _ hsep]
    intro h
    exact hst (List.mem_of_getLast?_eq_some h)
  refine ⟨?_, hlast⟩
  rw [contains_tEq_append_eq (q ++ sep ++ g) sep (contains_tEq_group q sep g hsep hs hq2 hg2).1]
  · exact contains_tEq_of_not_mem sep hst
  · intro _ h
    exact (hs _ (List.mem_of_mem_head? h)).2.2 rfl

/-- Parsing `q sep g sep r` for an arbitrary third piece `r`: unless `r` holds a
`t=` that no digit follows, the queue name is `q` and the consumer group is `g`. -/
theorem parse_group_three (sep v q g r : Str) (hsep : sep ≠ [])
    (hs : ∀ c ∈ sep, c ≠ '/' ∧ c ≠ 't' ∧ c ≠ '=')
    (hq : ∀ c ∈ q, c ∉ sep) (hg : ∀ c ∈ g, c ∉ sep)
    (hq1 : contains q ['/'] = false) (hg1 : contains g ['/'] = false)
    (hq2 : contains q ['t', '='] = false) (hg2 : contains g ['t', '='] = false)
    (hr : contains r ['t', '='] = true → findStringSubmatch r ≠ []) :
    ∃ cmd, parseGetCommand sep [v, q ++ sep ++ g ++ sep ++ r] = some cmd ∧ cmd.Name = v ∧
      cmd.QueueName = q ∧ cmd.ConsumerGroup = g := by
  obtain ⟨hPt, hPl⟩ := group_prefix_facts q sep g hsep hs hq2 hg2
  have hct := contains_tEq_append_eq _ r hPt (fun h _ => hPl h)
  have hfd := findStringSubmatch_append _ r hPt (fun h _ => hPl h)
  have hrp : replaceAllString (q ++ sep ++ g ++ sep ++ r) =
      q ++ sep ++ g ++ sep ++ replaceAllAux 0 r := replaceAllAux_append _ r hPt (fun h _ => hPl h)
  rw [parseGetCommand_cons, hct, hfd, hrp]
  by_cases hc : contains r ['t', '='] = true
  · rw [if_pos hc]
    rcases findStringSubmatch_shape r with h0 | ⟨w, d, sl, h1⟩
    · exact absurd h0 (hr hc)
    · rw [h1]
      obtain ⟨cmd2, h2, h3, h4, h5, _⟩ := parseRest_group sep q g r (replaceAllAux 0 r)
        { Name := v, QueueName := q ++ sep ++ g ++ sep ++ r, SubCommand := [], ConsumerGroup := [],
          Timeout := (atoi d).1 } rfl hsep hs hq hg hq1 hg1
      exact ⟨cmd2, h2, h3, h4, h5⟩
  · rw [if_neg hc]
    obtain ⟨cmd2, h2, h3, h4, h5, _⟩ := parseRest_group sep q g r r
      { Name := v, QueueName := q ++ sep ++ g ++ sep ++ r, SubCommand := [], ConsumerGroup := [],
        Timeout := 0 } rfl hsep hs hq hg hq1 hg1
    exact ⟨cmd2, h2, h3, h4, h5⟩

/-- Parsing `q sep g sep r` panics when `r` holds a `t=` that no digit follows. -/
theorem parse_group_three_panics (sep v q g r : Str) (hsep : sep ≠ [])
    (hs : ∀ c ∈ sep, c ≠ '/' ∧ c ≠ 't' ∧ c ≠ '=')
    (hq2 : contains q ['t', '='] = false) (hg2 : contains g ['t', '='] = false)
    (hr1 : contains r ['t', '='] = true) (hr2 : findStringSubmatch r = []) :
    parseGetCommand sep [v, q ++ sep ++ g ++ sep ++ r] = none := by
  obtain ⟨hPt, hPl⟩ := group_prefix_facts q sep g hsep hs hq2 hg2
  have hct := contains_tEq_append_eq _ r hPt (fun h _ => hPl h)
  have hfd := findStringSubmatch_append _ r hPt (fun h _ => hPl h)
  rw [parseGetCommand_cons, hct, hfd, if_pos hr1, hr2]
  rfl

/-! ## The parser: settled claims -/

/-- C1 (the parser does not fail; `foo/t=abc` gives timeout 0): refuted by the
code.  The specifier `foo/t=abc` contains `t=` but the pattern, which requires a
digit, does not match it, so `FindStringSubmatch` returns nil and `fields[2]`
panics; whatever the consumer-group separator, no `Command` is returned. -/
theorem parseGetCommand_panics_without_digits (sep : Str) :
    parseGetCommand sep ["GET".toList, "foo/t=abc".toList] = none := by
  rw [parseGetCommand_cons]
  rfl

/-- C2 (the parser agrees with the reference grammar on well-formed specifiers):
for a queue name `q` without `/`, `t=` or separator, a non-empty digit string `N`
whose value fits `int`, and a sub-command `s` among the six, `q/t=N/s` parses to
`(v, q, "", s, value N)`, `q/t=N` to `(v, q, "", "", value N)`, `q/s` to
`(v, q, "", s, 0)` and the bare `q` to `(v, q, "", "", 0)`. -/
theorem parseGetCommand_wellFormed (sep v q N s : Str)
    (hq1 : contains q ['/'] = false) (hq2 : contains q ['t', '='] = false)
    (hq3 : contains q sep = false)
    (hN : N ≠ []) (hd : N.all Char.isDigit = true) (hfit : (decimalValue N : Int) ≤ maxInt)
    (hs : s ∈ subCommands) :
    parseGetCommand sep [v, q ++ "/t=".toList ++ N ++ "/".toList ++ s] =
        some { Name := v, QueueName := q, SubCommand := s, ConsumerGroup := [],
               Timeout := decimalValue N } ∧
      parseGetCommand sep [v, q ++ "/t=".toList ++ N] =
        some { Name := v, QueueName := q, SubCommand := [], ConsumerGroup := [],
               Timeout := decimalValue N } ∧
      parseGetCommand sep [v, q ++ "/".toList ++ s] =
        some { Name := v, QueueName := q, SubCommand := s, ConsumerGroup := [], Timeout := 0 } ∧
      parseGetCommand sep [v, q] =
        some { Name := v, QueueName := q, SubCommand := [], ConsumerGroup := [], Timeout := 0 } := by
  obtain ⟨hs1, hs2, _⟩ := subCommand_facts s hs
  have e1 : q ++ "/t=".toList ++ N ++ "/".toList ++ s = q ++ '/' :: 't' :: '=' :: (N ++ '/' :: s) := by
    simp [String.toList]
  have e2 : q ++ "/t=".toList ++ N = q ++ '/' :: 't' :: '=' :: N := by
    simp [String.toList]
  have e3 : q ++ "/".toList ++ s = q ++ '/' :: s := by
    simp [String.toList]
  rw [e1, e2, e3]
  exact ⟨parse_timeout_slash sep v q N s hq1 hq2 hq3 hN hd hfit hs1 hs2,
    parse_timeout_end sep v q N hq1 hq2 hq3 hN hd hfit,
    parse_plain sep v q s hq1 hq2 hq3 hs1 hs2,
    parse_bare sep v q hq1 hq2 hq3⟩

/-- Witness of C2: `foo/t=500` parses to queue `foo`, no sub-command, timeout 500,
and `foo/close/open` to the sub-command `close/open`. -/
theorem parseGetCommand_wellFormed_witness :
    parseGetCommand "::".toList ["get".toList, "foo/t=500".toList] =
        some { Name := "get".toList, QueueName := "foo".toList, SubCommand := [],
               ConsumerGroup := [], Timeout := 500 } ∧
      parseGetCommand "::".toList ["get".toList, "foo/close/open".toList] =
        some { Name := "get".toList, QueueName := "foo".toList,
               SubCommand := "close/open".toList, ConsumerGroup := [], Timeout := 0 } :=
  ⟨(parseGetCommand_wellFormed "::".toList "get".toList "foo".toList "500".toList
      "close/open".toList (by decide) (by decide) (by decide) (by decide) (by decide)
      (by decide) (by decide)).2.1,
   (parseGetCommand_wellFormed "::".toList "get".toList "foo".toList "500".toList
      "close/open".toList (by decide) (by decide) (by decide) (by decide) (by decide)
      (by decide) (by decide)).2.2.1⟩


/-- C3 (consumer-group parsing, any third piece is discarded): refuted by the
code at the third piece `t=x`.  With the separator `::` of the spec's example,
`foo::groupA::t=x` contains `t=` with no digit after it, so the parser panics on
`fields[2]` instead of returning queue `foo` and group `groupA`.  (For third
pieces that avoid this panic `parse_group_three` gives `q` and `g`, and
`parse_group_two` covers the two-piece form.) -/
theorem parseGetCommand_third_piece_panics :
    parseGetCommand "::".toList ["GET".toList, "foo::groupA::t=x".toList] = none := by
  decide

/-- C4 (the parsed queue name holds no timeout fragment): refuted by the code on
a specifier with a timeout and no slash.  For `foot=5` the timeout 5 is read and
the fragment is stripped from the working specifier, but `QueueName` was
assigned before the stripping and is refreshed only when a slash remains, so the
queue name is still `foot=5`. -/
theorem parseGetCommand_keeps_fragment_without_slash :
    parseGetCommand "::".toList ["GET".toList, "foot=5".toList] =
        some { Name := "GET".toList, QueueName := "foot=5".toList, SubCommand := [],
               ConsumerGroup := [], Timeout := 5 } ∧
      hasTimeoutFragment "foot=5".toList = true := by
  decide

/-- The removal of fragments is a single pass: in `tt=1=5/open` the match `t=1`
is removed and the text around it joins into the queue name `t=5`. -/
theorem parseGetCommand_joined_fragment :
    parseGetCommand "::".toList ["GET".toList, "tt=1=5/open".toList] =
        some { Name := "GET".toList, QueueName := "t=5".toList, SubCommand := "open".toList,
               ConsumerGroup := [], Timeout := 1 } ∧
      hasTimeoutFragment "t=5".toList = true := by
  decide

/-! ## Lemmas on the state machine -/

theorem getConsumer_ok (env : Env) (cmd : Command) (s : State)
    (h : env.resolveFails s.log.length (consumerKey cmd) = false) :
    getConsumer env cmd s = (some (consumerKey cmd), s.record (.getConsumer (consumerKey cmd))) := by
  simp only [consumerKey] at h
  simp [getConsumer, consumerKey, h]

theorem getConsumer_fails (env : Env) (cmd : Command) (s : State)
    (h : env.resolveFails s.log.length (consumerKey cmd) = true) :
    getConsumer env cmd s = (none, s.record (.getConsumer (consumerKey cmd))) := by
  simp only [consumerKey] at h
  simp [getConsumer, consumerKey, h]

/-- What the polling loop leaves alone: the transaction state and the counters;
it only calls `GetNext` on its own consumer, reads the clock and sleeps. -/
theorem pollLoop_frame (env : Env) (q : Key) (cmd : Command) (deadline : Int) :
    ∀ (fuel : Nat) (s : State) (V : Str) (s3 : State),
      pollLoop env q cmd deadline fuel s = some (V, s3) →
      s3.currentValue = s.currentValue ∧ s3.currentCommand = s.currentCommand ∧
      s3.openReads = s.openReads ∧ s3.cmdGet = s.cmdGet ∧
      ∃ l, s3.log = s.log ++ l ∧ ∀ e ∈ l, e = .getNext q ∨ e = .now ∨ e = .sleep := by
  intro fuel
  induction fuel with
  | zero => intro s V s3 h; simp [pollLoop] at h
  | succ n ih =>
    intro s V s3 h
    rw [pollLoop] at h
    by_cases hv : 0 < (getNext q s).1.length
    · simp only [hv, if_true, Option.some.injEq, Prod.mk.injEq] at h
      obtain ⟨-, rfl⟩ := h
      refine ⟨?_, ?_, ?_, ?_, [.getNext q], ?_, ?_⟩ <;>
        first
        | (simp only [getNext]; split <;> simp [State.record])
        | simp
    · simp only [hv, if_false] at h
      by_cases hd : deadline < (now env (getNext q s).2).1
      · simp only [hd, if_true, Option.some.injEq, Prod.mk.injEq] at h
        obtain ⟨-, rfl⟩ := h
        refine ⟨?_, ?_, ?_, ?_, [.getNext q, .now], ?_, ?_⟩ <;>
          first
          | (simp only [getNext, now]; split <;> simp [State.record])
          | simp
      · simp only [hd, if_false] at h
        obtain ⟨h1, h2, h3, h4, l, h5, h6⟩ := ih _ _ _ h
        refine ⟨?_, ?_, ?_, ?_, [.getNext q, .now, .sleep] ++ l, ?_, ?_⟩
        · rw [h1]; simp only [getNext, now, sleep]; split <;> simp [State.record]
        · rw [h2]; simp only [getNext, now, sleep]; split <;> simp [State.record]
        · rw [h3]; simp only [getNext, now, sleep]; split <;> simp [State.record]
        · rw [h4]; simp only [getNext, now, sleep]; split <;> simp [State.record]
        · rw [h5]; simp only [getNext, now, sleep]; split <;> simp [State.record]
        · intro e he
          simp only [List.mem_append, List.mem_cons, List.mem_singleton, List.not_mem_nil,
            or_false] at he
          rcases he with (rfl | rfl | rfl) | he
          · simp
          · simp
          · simp
          · exact h6 e he

theorem dequeueLoop_frame (env : Env) (fuel : Nat) (q : Key) (cmd : Command) (s : State)
    (V : Str) (s3 : State) (h : dequeueLoop env fuel q cmd s = some (V, s3)) :
    s3.currentValue = s.currentValue ∧ s3.currentCommand = s.currentCommand ∧
      s3.openReads = s.openReads ∧ s3.cmdGet = s.cmdGet ∧
      ∃ l, s3.log = s.log ++ l ∧ ∀ e ∈ l, e = .getNext q ∨ e = .now ∨ e = .sleep := by
  obtain ⟨h1, h2, h3, h4, l, h5, h6⟩ := pollLoop_frame env q cmd _ fuel _ V s3 h
  refine ⟨h1, h2, h3, h4, .now :: l, ?_, ?_⟩
  · rw [h5]; simp [now, State.record]
  · intro e he
    rcases List.mem_cons.mp he with rfl | he
    · simp
    · exact h6 e he

theorem dispatch_open (env : Env) (fuel : Nat) (cmd : Command) (s : State)
    (h : cmd.SubCommand = [] ∨ cmd.SubCommand = "open".toList) :
    dispatch env fuel cmd s = get env fuel cmd s := by
  unfold dispatch
  rw [if_pos h]

theorem dispatch_close (env : Env) (fuel : Nat) (cmd : Command) (s : State)
    (h : cmd.SubCommand = "close".toList) :
    dispatch env fuel cmd s = .returned (getClose env cmd s) := by
  unfold dispatch
  rw [h]
  rfl

theorem dispatch_closeOpen (env : Env) (fuel : Nat) (cmd : Command) (s : State)
    (h : cmd.SubCommand = "close/open".toList) :
    dispatch env fuel cmd s =
      match getClose env cmd s with
      | (none, s1) => get env fuel cmd s1
      | (some e, s1) => .returned (some e, s1) := by
  unfold dispatch
  rw [h]
  rfl

theorem dispatch_abort (env : Env) (fuel : Nat) (cmd : Command) (s : State)
    (h : cmd.SubCommand = "abort".toList) :
    dispatch env fuel cmd s = abort env s := by
  unfold dispatch
  rw [h]
  rfl

theorem Get_of_dispatch (env : Env) (sep : Str) (fuel : Nat) (input : List Str) (s : State)
    (cmd : Command) (hp : parseGetCommand sep input = some cmd) :
    Get env sep fuel input s =
      match dispatch env fuel cmd s with
      | .returned (none, s1) => .returned (none, { s1 with out := s1.out ++ endMessage })
      | .returned (some e, s1) => .returned (some e, s1)
      | .panicked => .panicked
      | .running => .running := by
  unfold Get
  rw [hp]

/-- The close phase leaves no transaction open. -/
theorem getClose_currentValue (env : Env) (cmd : Command) (s s0 : State)
    (h : getClose env cmd s = (none, s0)) : s0.currentValue = none := by
  unfold getClose at h
  by_cases hr : env.resolveFails s.log.length (consumerKey cmd) = true
  · rw [getConsumer_fails env cmd s hr] at h
    simp at h
  · rw [getConsumer_ok env cmd s (by simpa using hr)] at h
    cases hv : s.currentValue with
    | none =>
      simp only [State.record, hv, Option.isSome_none, Bool.false_eq_true, if_false,
        Prod.mk.injEq, true_and] at h
      rw [← h]
    | some v =>
      simp only [State.record, hv, Option.isSome_some, if_true, Prod.mk.injEq, true_and] at h
      rw [← h]; rfl

/-- Where the open phase of an `open` or `close/open` command starts. -/
theorem dispatch_open_phase (env : Env) (fuel : Nat) (cmd : Command) (s s0 : State)
    (hphase : (cmd.SubCommand = "open".toList ∧ s.currentValue = none ∧ s0 = s) ∨
      (cmd.SubCommand = "close/open".toList ∧ getClose env cmd s = (none, s0))) :
    dispatch env fuel cmd s = get env fuel cmd s0 ∧ s0.currentValue = none ∧
      contains cmd.SubCommand "open".toList = true := by
  rcases hphase with ⟨h1, h2, rfl⟩ | ⟨h1, h2⟩
  · exact ⟨dispatch_open env fuel cmd s0 (Or.inr h1), h2, by rw [h1]; decide⟩
  · refine ⟨?_, getClose_currentValue env cmd s s0 h2, by rw [h1]; decide⟩
    rw [dispatch_closeOpen env fuel cmd s h1, h2]

/-- A successful open phase: the value fetched and the command become the
transaction state and the consumer's open-read counter goes up by one. -/
theorem get_opens (env : Env) (fuel : Nat) (cmd : Command) (s0 s1 s3 : State) (q : Key) (V : Str)
    (hcv : s0.currentValue = none) (hopen : contains cmd.SubCommand "open".toList = true)
    (hres : getConsumer env cmd s0 = (some q, s1))
    (hloop : dequeueLoop env fuel q cmd s1 = some (V, s3)) (hV : V ≠ []) :
    ∃ t, get env fuel cmd s0 = .returned (none, t) ∧ t.currentValue = some V ∧
      t.currentCommand = some cmd ∧
      t.openReads = (fun k => if k = q then s3.openReads k + 1 else s3.openReads k) ∧
      t.cmdGet = (s3.cmdGet + 1) % 2 ^ 64 ∧ t.out = s3.out ∧ t.items = s3.items ∧
      t.log = s3.log ++ [.updateOpenReads q 1] ∧ t.clockReads = s3.clockReads ∧
      t.sleeps = s3.sleeps := by
  have hlen : 0 < V.length := List.length_pos.mpr hV
  refine ⟨{ updateOpenReads q 1 (setCurrentState (some cmd) (some V) s3) with
    cmdGet := ((updateOpenReads q 1 (setCurrentState (some cmd) (some V) s3)).cmdGet + 1) % 2 ^ 64 },
    ?_, ?_⟩
  · unfold get
    rw [hcv]
    simp only [Option.isSome_none, Bool.false_eq_true, if_false, hres, hloop, hopen, hlen,
      and_self, if_true]
  · simp [updateOpenReads, setCurrentState, State.record]

theorem getConsumer_snd (env : Env) (cmd : Command) (s : State) :
    (getConsumer env cmd s).2 = s.record (.getConsumer (consumerKey cmd)) := by
  by_cases h : env.resolveFails s.log.length (consumerKey cmd) = true
  · rw [getConsumer_fails env cmd s h]
  · rw [getConsumer_ok env cmd s (by simpa using h)]

/-- A plain get (empty sub-command) that fetched a value keeps no transaction. -/
theorem get_plain (env : Env) (fuel : Nat) (cmd : Command) (s0 s1 s3 : State) (q : Key) (V : Str)
    (hcv : s0.currentValue = none) (hsub : cmd.SubCommand = [])
    (hres : getConsumer env cmd s0 = (some q, s1))
    (hloop : dequeueLoop env fuel q cmd s1 = some (V, s3)) :
    get env fuel cmd s0 = .returned (none, { s3 with cmdGet := (s3.cmdGet + 1) % 2 ^ 64 }) := by
  have hc : contains cmd.SubCommand "open".toList = false := by rw [hsub]; decide
  unfold get
  rw [hcv]
  simp only [Option.isSome_none, Bool.false_eq_true, if_false, hres, hloop, hc, false_and]

/-- Close with a resolving consumer: the transaction state is cleared and, when a
value was held, the counter of the command's consumer goes down by one. -/
theorem getClose_ok (env : Env) (cmd : Command) (s : State)
    (hres : env.resolveFails s.log.length (consumerKey cmd) = false) :
    ∃ t, getClose env cmd s = (none, t) ∧ t.currentValue = none ∧ t.out = s.out ∧
      t.cmdGet = s.cmdGet ∧ t.items = s.items ∧
      (∀ v, s.currentValue = some v →
        t.currentCommand = none ∧
        t.openReads = (fun k => if k = consumerKey cmd then s.openReads k + -1 else s.openReads k) ∧
        t.log = s.log ++ [.getConsumer (consumerKey cmd), .updateOpenReads (consumerKey cmd) (-1)]) ∧
      (s.currentValue = none →
        t.currentCommand = s.currentCommand ∧ t.openReads = s.openReads ∧
        t.log = s.log ++ [.getConsumer (consumerKey cmd)]) := by
  unfold getClose
  rw [getConsumer_ok env cmd s hres]
  cases hv : s.currentValue with
  | none =>
    refine ⟨s.record (.getConsumer (consumerKey cmd)), ?_, ?_⟩
    · simp [State.record, hv]
    · simp [State.record, hv]
  | some v =>
    refine ⟨setCurrentState none none (updateOpenReads (consumerKey cmd) (-1)
      (s.record (.getConsumer (consumerKey cmd)))), ?_, ?_⟩
    · simp [State.record, hv]
    · simp [State.record, setCurrentState, updateOpenReads]

/-- Abort with a held value, a resolving consumer and a successful requeue. -/
theorem abort_ok (env : Env) (s : State) (v : Str) (cc : Command)
    (hv : s.currentValue = some v) (hc : s.currentCommand = some cc)
    (hres : env.resolveFails s.log.length (consumerKey cc) = false)
    (hput : env.putBackFails (s.log.length + 1) (consumerKey cc) v = false) :
    ∃ t, abort env s = .returned (none, t) ∧ t.currentValue = none ∧ t.currentCommand = none ∧
      t.openReads = (fun k => if k = consumerKey cc then s.openReads k + -1 else s.openReads k) ∧
      t.items = (fun k => if k = consumerKey cc then v :: s.items k else s.items k) ∧
      t.log = s.log ++ [.getConsumer (consumerKey cc), .putBack (consumerKey cc) v,
        .updateOpenReads (consumerKey cc) (-1)] ∧
      t.out = s.out ∧ t.cmdGet = s.cmdGet := by
  refine ⟨setCurrentState none none (updateOpenReads (consumerKey cc) (-1)
    (putBack env (consumerKey cc) v (s.record (.getConsumer (consumerKey cc)))).2), ?_, ?_⟩
  · unfold abort
    rw [hv, hc]
    simp only [getConsumer_ok env cc s hres]
    simp [putBack, State.record, hput, hv]
  · simp [putBack, State.record, hput, setCurrentState, updateOpenReads]

/-- Abort with a held value when the resolution or the requeue fails. -/
theorem abort_fails (env : Env) (s : State) (v : Str) (cc : Command)
    (hv : s.currentValue = some v) (hc : s.currentCommand = some cc)
    (hfail : env.resolveFails s.log.length (consumerKey cc) = true ∨
      env.putBackFails (s.log.length + 1) (consumerKey cc) v = true) :
    ∃ t, abort env s = .returned (some .common, t) ∧ t.currentValue = s.currentValue ∧
      t.currentCommand = s.currentCommand ∧ t.openReads = s.openReads ∧ t.items = s.items ∧
      t.out = s.out ∧ t.cmdGet = s.cmdGet ∧
      ∃ l, t.log = s.log ++ l ∧
        ∀ e ∈ l, e = .getConsumer (consumerKey cc) ∨ e = .putBack (consumerKey cc) v := by
  by_cases hres : env.resolveFails s.log.length (consumerKey cc) = true
  · refine ⟨s.record (.getConsumer (consumerKey cc)), ?_, rfl, rfl, rfl, rfl, rfl, rfl,
      [.getConsumer (consumerKey cc)], rfl, by simp⟩
    unfold abort
    rw [hv, hc]
    simp only [getConsumer_fails env cc s hres]
  · have hres2 : env.resolveFails s.log.length (consumerKey cc) = false := by simpa using hres
    have hput : env.putBackFails (s.log.length + 1) (consumerKey cc) v = true := by
      rcases hfail with h | h
      · exact absurd h hres
      · exact h
    refine ⟨(s.record (.getConsumer (consumerKey cc))).record (.putBack (consumerKey cc) v), ?_,
      rfl, rfl, rfl, rfl, rfl, rfl,
      [.getConsumer (consumerKey cc), .putBack (consumerKey cc) v], by simp [State.record],
      by simp⟩
    unfold abort
    rw [hv, hc]
    simp only [getConsumer_ok env cc s hres2]
    simp [putBack, State.record, hput]

/-- Abort without a held value does nothing. -/
theorem abort_idle (env : Env) (s : State) (hv : s.currentValue = none) :
    abort env s = .returned (none, s) := by
  unfold abort
  rw [hv]

/-! ## The state machine: settled claims -/

/-- C5 (at most one open read per connection): while a value is held, a GET
with the empty sub-command or `open` returns `ErrCloseCurrentItemFirst` and the
whole state is as before: nothing written, no collaborator called (so no dequeue
attempt), transaction state and every counter unchanged. -/
theorem Get_rejects_second_open (env : Env) (sep : Str) (fuel : Nat) (input : List Str)
    (s : State) (cmd : Command) (v : Str)
    (hp : parseGetCommand sep input = some cmd)
    (hsub : cmd.SubCommand = [] ∨ cmd.SubCommand = "open".toList)
    (hv : s.currentValue = some v) :
    Get env sep fuel input s = .returned (some .closeCurrentItemFirst, s) := by
  rw [Get_of_dispatch env sep fuel input s cmd hp, dispatch_open env fuel cmd s hsub]
  unfold get
  rw [hv]
  rfl

/-- Witness of C5: `q/open` on a connection that already holds `A`. -/
theorem Get_rejects_second_open_witness :
    Get calmEnv "::".toList 0 ["GET".toList, "q/open".toList] heldState =
      .returned (some .closeCurrentItemFirst, heldState) :=
  Get_rejects_second_open calmEnv "::".toList 0 ["GET".toList, "q/open".toList] heldState
    openCmd "A".toList (by decide) (Or.inr rfl) rfl

/-- C6 as stated fails for the empty sub-command: on a fresh connection the
plain `GET q` fetches `A` and writes it, yet afterwards no value and no command
are held and the open-read counter of `q` is still 0. -/
theorem Get_plain_retains_nothing :
    (Get calmEnv "::".toList 1 ["GET".toList, "q".toList] freshState).isReturned = true ∧
      (Get calmEnv "::".toList 1 ["GET".toList, "q".toList] freshState).error? = none ∧
      ((Get calmEnv "::".toList 1 ["GET".toList, "q".toList] freshState).stateD freshState).out =
        "VALUE q 0 1\r\nA\r\nEND\r\n".toList ∧
      ((Get calmEnv "::".toList 1 ["GET".toList, "q".toList] freshState).stateD
        freshState).currentValue = none ∧
      ((Get calmEnv "::".toList 1 ["GET".toList, "q".toList] freshState).stateD
        freshState).currentCommand = none ∧
      ((Get calmEnv "::".toList 1 ["GET".toList, "q".toList] freshState).stateD
        freshState).openReads qKey = 0 := by
  decide

/-- C6, amended: a GET whose open phase (sub-command `open`, or `close/open`
after its close phase; `s0` is the state where that phase starts) resolves its
consumer and dequeues a non-empty `V` returns with exactly `V` and the command
held and the consumer's open-read counter one higher, every other counter as
before; with the empty sub-command the GET returns as well but holds nothing
and changes no open-read counter. -/
theorem Get_open_retains_value (env : Env) (sep : Str) (fuel : Nat) (input : List Str)
    (s s0 s1 s3 : State) (cmd : Command) (V : Str)
    (hp : parseGetCommand sep input = some cmd)
    (hphase : (cmd.SubCommand = [] ∧ s.currentValue = none ∧ s0 = s) ∨
      (cmd.SubCommand = "open".toList ∧ s.currentValue = none ∧ s0 = s) ∨
      (cmd.SubCommand = "close/open".toList ∧ getClose env cmd s = (none, s0)))
    (hres : getConsumer env cmd s0 = (some (consumerKey cmd), s1))
    (hloop : dequeueLoop env fuel (consumerKey cmd) cmd s1 = some (V, s3))
    (hV : V ≠ []) :
    ∃ t, Get env sep fuel input s = .returned (none, t) ∧
      (cmd.SubCommand ≠ [] →
        t.currentValue = some V ∧ t.currentCommand = some cmd ∧
        t.openReads (consumerKey cmd) = s0.openReads (consumerKey cmd) + 1 ∧
        ∀ k, k ≠ consumerKey cmd → t.openReads k = s0.openReads k) ∧
      (cmd.SubCommand = [] →
        t.currentValue = none ∧ t.currentCommand = s.currentCommand ∧
        t.openReads = s.openReads) := by
  have hs1 : s1 = s0.record (.getConsumer (consumerKey cmd)) := by
    have := getConsumer_snd env cmd s0
    rw [hres] at this
    exact this
  obtain ⟨f1, f2, f3, -, -⟩ := dequeueLoop_frame env fuel _ cmd s1 V s3 hloop
  rw [Get_of_dispatch env sep fuel input s cmd hp]
  rcases hphase with ⟨h1, h2, rfl⟩ | hphase
  · rw [dispatch_open env fuel cmd s0 (Or.inl h1), get_plain env fuel cmd s0 s1 s3 _ V h2 h1 hres hloop]
    refine ⟨_, rfl, fun h => absurd h1 h, fun _ => ?_⟩
    subst hs1
    exact ⟨by simpa [State.record, h2] using f1, by simpa [State.record] using f2,
      by simpa [State.record] using f3⟩
  · obtain ⟨hd, hcv, hopen⟩ := dispatch_open_phase env fuel cmd s s0 hphase
    obtain ⟨t, g0, g1, g2, g3, -⟩ := get_opens env fuel cmd s0 s1 s3 _ V hcv hopen hres hloop hV
    rw [hd, g0]
    have hne : cmd.SubCommand ≠ [] := by
      rcases hphase with ⟨h, -⟩ | ⟨h, -⟩ <;> rw [h] <;> decide
    refine ⟨_, rfl, fun _ => ⟨g1, g2, ?_, ?_⟩, fun h => absurd h hne⟩
    · subst hs1
      simp [g3, f3, State.record]
    · intro k hk
      subst hs1
      simp [g3, f3, hk, State.record]

/-- Witness of C6: `q/open` on a fresh connection in front of the queue `[A, B]`. -/
theorem Get_open_retains_value_witness :
    ∃ t, Get calmEnv "::".toList 1 ["GET".toList, "q/open".toList] freshState =
        .returned (none, t) ∧
      (openCmd.SubCommand ≠ [] →
        t.currentValue = some "A".toList ∧ t.currentCommand = some openCmd ∧
        t.openReads (consumerKey openCmd) = freshState.openReads (consumerKey openCmd) + 1 ∧
        ∀ k, k ≠ consumerKey openCmd → t.openReads k = freshState.openReads k) ∧
      (openCmd.SubCommand = [] →
        t.currentValue = none ∧ t.currentCommand = freshState.currentCommand ∧
        t.openReads = freshState.openReads) :=
  Get_open_retains_value calmEnv "::".toList 1 ["GET".toList, "q/open".toList] freshState
    freshState (getConsumer calmEnv openCmd freshState).2
    ((dequeueLoop calmEnv 1 (consumerKey openCmd) openCmd
      (getConsumer calmEnv openCmd freshState).2).getD ([], freshState)).2
    openCmd "A".toList (by decide) (Or.inr (Or.inl ⟨rfl, rfl, rfl⟩)) rfl rfl (by decide)

/-- C7 (postcondition of close): a `close` whose consumer resolves succeeds,
writes only the terminator, leaves no value held, the queues and the global GET
counter untouched, and calls no `PutBack`.  With a value held the stored command
is cleared and the counter of the command's consumer goes down by exactly one
(the calls are `getConsumer`, `UpdateOpenReads(-1)`); with none held nothing of
the transaction state or the counters changes, and a further close after this
one changes nothing either. -/
theorem Get_close (env : Env) (sep : Str) (fuel : Nat) (input : List Str) (s : State)
    (cmd : Command)
    (hp : parseGetCommand sep input = some cmd) (hsub : cmd.SubCommand = "close".toList)
    (hres : env.resolveFails s.log.length (consumerKey cmd) = false) :
    ∃ t, Get env sep fuel input s = .returned (none, t) ∧ t.currentValue = none ∧
      t.out = s.out ++ endMessage ∧ t.cmdGet = s.cmdGet ∧ t.items = s.items ∧
      (∀ v, s.currentValue = some v →
        t.currentCommand = none ∧
        t.openReads (consumerKey cmd) = s.openReads (consumerKey cmd) - 1 ∧
        (∀ k, k ≠ consumerKey cmd → t.openReads k = s.openReads k) ∧
        t.log = s.log ++ [.getConsumer (consumerKey cmd), .updateOpenReads (consumerKey cmd) (-1)]) ∧
      (s.currentValue = none →
        t.currentCommand = s.currentCommand ∧ t.openReads = s.openReads ∧
        t.log = s.log ++ [.getConsumer (consumerKey cmd)]) ∧
      (∀ (fuel2 : Nat) (input2 : List Str) (cmd2 : Command),
        parseGetCommand sep input2 = some cmd2 → cmd2.SubCommand = "close".toList →
        env.resolveFails t.log.length (consumerKey cmd2) = false →
        ∃ u, Get env sep fuel2 input2 t = .returned (none, u) ∧
          u.currentValue = t.currentValue ∧ u.currentCommand = t.currentCommand ∧
          u.openReads = t.openReads ∧ u.cmdGet = t.cmdGet ∧ u.items = t.items ∧
          u.log = t.log ++ [.getConsumer (consumerKey cmd2)]) := by
  obtain ⟨t, h0, h1, h2, h3, h4, h5, h6⟩ := getClose_ok env cmd s hres
  refine ⟨{ t with out := t.out ++ endMessage }, ?_, h1, ?_, h3, h4, ?_, h6, ?_⟩
  · rw [Get_of_dispatch env sep fuel input s cmd hp, dispatch_close env fuel cmd s hsub, h0]
  · simp [h2]
  · intro v hv
    obtain ⟨a, b, c⟩ := h5 v hv
    refine ⟨a, ?_, ?_, c⟩
    · show t.openReads (consumerKey cmd) = _
      rw [b]; simp [Int.sub_eq_add_neg]
    · intro k hk
      show t.openReads k = _
      rw [b]; simp [hk]
  · intro fuel2 input2 cmd2 hp2 hsub2 hres2
    obtain ⟨u, g0, g1, g2, g3, g4, -, g6⟩ := getClose_ok env cmd2 { t with out := t.out ++ endMessage } hres2
    obtain ⟨i1, i2, i3⟩ := g6 h1
    refine ⟨{ u with out := u.out ++ endMessage }, ?_, ?_, i1, i2, g3, g4, i3⟩
    · rw [Get_of_dispatch env sep fuel2 input2 _ cmd2 hp2, dispatch_close env fuel2 cmd2 _ hsub2, g0]
    · show u.currentValue = t.currentValue
      rw [g1, h1]

/-- Witness of C7, on the scenario of the spec: with the queue `[A, B]`,
`q/open` returns `A` and sets the count to 1, `q/close` sets it to 0 without
requeuing, and the next `q/open` returns `B`. -/
theorem Get_close_witness :
    (afterOpen.currentValue = some "A".toList ∧ afterOpen.openReads qKey = 1 ∧
      afterOpen.out = "VALUE q 0 1\r\nA\r\nEND\r\n".toList) ∧
    (∃ t, Get calmEnv "::".toList 1 ["GET".toList, "q/close".toList] afterOpen =
        .returned (none, t) ∧ t.currentValue = none ∧ t.openReads qKey = 0 ∧
        t.items qKey = ["B".toList]) ∧
    (afterReopen.currentValue = some "B".toList ∧ afterReopen.openReads qKey = 1 ∧
      afterReopen.out =
        "VALUE q 0 1\r\nA\r\nEND\r\nEND\r\nVALUE q 0 1\r\nB\r\nEND\r\n".toList) := by
  refine ⟨by decide, ?_, by decide⟩
  obtain ⟨t, h0, h1, -, -, h4, h5, -, -⟩ :=
    Get_close calmEnv "::".toList 1 ["GET".toList, "q/close".toList] afterOpen closeCmd
      (by decide) rfl rfl
  obtain ⟨-, h6, -, -⟩ := h5 "A".toList (by decide)
  refine ⟨t, h0, h1, ?_, ?_⟩
  · exact h6.trans (by decide)
  · rw [h4]; decide

/-- With no value held, an open-get never answers `ErrCloseCurrentItemFirst`. -/
theorem Get_open_not_rejected (env : Env) (sep : Str) (fuel : Nat) (input : List Str)
    (s : State) (cmd : Command) (hp : parseGetCommand sep input = some cmd)
    (hsub : cmd.SubCommand = [] ∨ cmd.SubCommand = "open".toList)
    (hv : s.currentValue = none) :
    (Get env sep fuel input s).error? ≠ some .closeCurrentItemFirst := by
  rw [Get_of_dispatch env sep fuel input s cmd hp, dispatch_open env fuel cmd s hsub]
  unfold get
  rw [hv]
  simp only [Option.isSome_none, Bool.false_eq_true, if_false]
  by_cases hr : env.resolveFails s.log.length (consumerKey cmd) = true
  · rw [getConsumer_fails env cmd s hr]
    simp [Outcome.error?]
  · rw [getConsumer_ok env cmd s (by simpa using hr)]
    cases hl : dequeueLoop env fuel (consumerKey cmd) cmd
        (s.record (.getConsumer (consumerKey cmd))) with
    | none => simp only [hl, Outcome.error?]; simp
    | some p => obtain ⟨V, s3⟩ := p; simp only [hl, Outcome.error?]; simp

/-- An `abort` GET on a held value, whatever queue its specifier names: the only
consumer resolved is that of the stored command, every call goes to it, and no
other consumer's queue or counter changes. -/
theorem Get_abort_held (env : Env) (sep : Str) (fuel : Nat) (input : List Str) (t : State)
    (cmd2 cc : Command) (V : Str)
    (hp : parseGetCommand sep input = some cmd2) (hsub : cmd2.SubCommand = "abort".toList)
    (hv : t.currentValue = some V) (hc : t.currentCommand = some cc) :
    ∃ e u l, Get env sep fuel input t = .returned (e, u) ∧
      u.log = t.log ++ .getConsumer (consumerKey cc) :: l ∧
      (∀ x ∈ l, x = .putBack (consumerKey cc) V ∨ x = .updateOpenReads (consumerKey cc) (-1)) ∧
      ∀ k, k ≠ consumerKey cc → u.items k = t.items k ∧ u.openReads k = t.openReads k := by
  rw [Get_of_dispatch env sep fuel input t cmd2 hp, dispatch_abort env fuel cmd2 t hsub]
  by_cases hfail : env.resolveFails t.log.length (consumerKey cc) = true ∨
      env.putBackFails (t.log.length + 1) (consumerKey cc) V = true
  · obtain ⟨u, h0, -, -, h3, h4, -, -, l, h7, h8⟩ := abort_fails env t V cc hv hc hfail
    rw [h0]
    by_cases hr : env.resolveFails t.log.length (consumerKey cc) = true
    · refine ⟨some .common, u, [], rfl, ?_, by simp, fun k _ => by rw [h3, h4]; exact ⟨rfl, rfl⟩⟩
      have : abort env t = .returned (some .common, t.record (.getConsumer (consumerKey cc))) := by
        unfold abort
        rw [hv, hc]
        simp only [getConsumer_fails env cc t hr]
      rw [this] at h0
      cases h0
      rfl
    · have hr2 : env.resolveFails t.log.length (consumerKey cc) = false := by simpa using hr
      have hput : env.putBackFails (t.log.length + 1) (consumerKey cc) V = true := by
        rcases hfail with h | h
        · exact absurd h hr
        · exact h
      refine ⟨some .common, u, [.putBack (consumerKey cc) V], rfl, ?_, by simp,
        fun k _ => by rw [h3, h4]; exact ⟨rfl, rfl⟩⟩
      have : abort env t = .returned (some .common,
          (t.record (.getConsumer (consumerKey cc))).record (.putBack (consumerKey cc) V)) := by
        unfold abort
        rw [hv, hc]
        simp only [getConsumer_ok env cc t hr2]
        simp [putBack, State.record, hput]
      rw [this] at h0
      cases h0
      simp [State.record]
  · have hr : env.resolveFails t.log.length (consumerKey cc) = false := by
      by_contra h; exact hfail (Or.inl (by simpa using h))
    have hput : env.putBackFails (t.log.length + 1) (consumerKey cc) V = false := by
      by_contra h; exact hfail (Or.inr (by simpa using h))
    obtain ⟨u, h0, -, -, h3, h4, h5, -, -⟩ := abort_ok env t V cc hv hc hr hput
    rw [h0]
    refine ⟨none, { u with out := u.out ++ endMessage },
      [.putBack (consumerKey cc) V, .updateOpenReads (consumerKey cc) (-1)], rfl, h5, by simp, ?_⟩
    intro k hk
    show u.items k = _ ∧ u.openReads k = _
    rw [h3, h4]
    simp [hk]

/-- C8 as stated fails for the open-get with the empty sub-command: after the
plain `GET q` has returned `A`, `GET q/abort` succeeds without any `PutBack`
call, and `A` is not back in the queue. -/
theorem plain_get_then_abort_requeues_nothing :
    ((Get calmEnv "::".toList 1 ["GET".toList, "q".toList] freshState).stateD freshState).out =
        "VALUE q 0 1\r\nA\r\nEND\r\n".toList ∧
      (Get calmEnv "::".toList 1 ["GET".toList, "q/abort".toList]
        ((Get calmEnv "::".toList 1 ["GET".toList, "q".toList] freshState).stateD
          freshState)).error? = none ∧
      ((Get calmEnv "::".toList 1 ["GET".toList, "q/abort".toList]
        ((Get calmEnv "::".toList 1 ["GET".toList, "q".toList] freshState).stateD
          freshState)).stateD freshState).log =
        [.getConsumer qKey, .now, .getNext qKey] ∧
      ((Get calmEnv "::".toList 1 ["GET".toList, "q/abort".toList]
        ((Get calmEnv "::".toList 1 ["GET".toList, "q".toList] freshState).stateD
          freshState)).stateD freshState).items qKey = ["B".toList] := by
  decide

/-- C8, amended to the sub-commands that hold the value: after a GET whose open
phase (`open`, or `close/open` after its close phase; `s0` is where the phase
starts) resolved its consumer and dequeued a non-empty `V`, an `abort` whose
resolution and requeue succeed makes exactly the calls `getConsumer`,
`PutBack(V)`, `UpdateOpenReads(-1)` on the opening command's consumer, brings
every open-read counter back to its value before the open, leaves no value and
no command held, and a following open-get is not rejected with
`ErrCloseCurrentItemFirst`. -/
theorem open_then_abort_round_trip (env : Env) (sep : Str) (fuel : Nat)
    (input1 input2 : List Str) (s s0 s1 s3 : State) (cmd1 cmd2 : Command) (V : Str)
    (hp1 : parseGetCommand sep input1 = some cmd1)
    (hphase : (cmd1.SubCommand = "open".toList ∧ s.currentValue = none ∧ s0 = s) ∨
      (cmd1.SubCommand = "close/open".toList ∧ getClose env cmd1 s = (none, s0)))
    (hres : getConsumer env cmd1 s0 = (some (consumerKey cmd1), s1))
    (hloop : dequeueLoop env fuel (consumerKey cmd1) cmd1 s1 = some (V, s3))
    (hV : V ≠ [])
    (hp2 : parseGetCommand sep input2 = some cmd2) (hsub2 : cmd2.SubCommand = "abort".toList) :
    ∃ t, Get env sep fuel input1 s = .returned (none, t) ∧
      (env.resolveFails t.log.length (consumerKey cmd1) = false →
        env.putBackFails (t.log.length + 1) (consumerKey cmd1) V = false →
        ∃ u, Get env sep fuel input2 t = .returned (none, u) ∧
          u.log = t.log ++ [.getConsumer (consumerKey cmd1), .putBack (consumerKey cmd1) V,
            .updateOpenReads (consumerKey cmd1) (-1)] ∧
          u.openReads = s0.openReads ∧ u.currentValue = none ∧ u.currentCommand = none ∧
          ∀ (fuel3 : Nat) (input3 : List Str) (cmd3 : Command),
            parseGetCommand sep input3 = some cmd3 →
            (cmd3.SubCommand = [] ∨ cmd3.SubCommand = "open".toList) →
            (Get env sep fuel3 input3 u).error? ≠ some .closeCurrentItemFirst) := by
  have hs1 : s1 = s0.record (.getConsumer (consumerKey cmd1)) := by
    have := getConsumer_snd env cmd1 s0
    rw [hres] at this
    exact this
  obtain ⟨-, -, f3, -, -⟩ := dequeueLoop_frame env fuel _ cmd1 s1 V s3 hloop
  obtain ⟨hd, hcv, hopen⟩ := dispatch_open_phase env fuel cmd1 s s0 hphase
  obtain ⟨t, g0, g1, g2, g3, -⟩ := get_opens env fuel cmd1 s0 s1 s3 _ V hcv hopen hres hloop hV
  refine ⟨{ t with out := t.out ++ endMessage }, ?_, ?_⟩
  · rw [Get_of_dispatch env sep fuel input1 s cmd1 hp1, hd, g0]
  · intro hr hput
    obtain ⟨u, a0, a1, a2, a3, -, a5, -, -⟩ :=
      abort_ok env { t with out := t.out ++ endMessage } V cmd1 g1 g2 hr hput
    refine ⟨{ u with out := u.out ++ endMessage }, ?_, a5, ?_, a1, a2, ?_⟩
    · rw [Get_of_dispatch env sep fuel input2 _ cmd2 hp2, dispatch_abort env fuel cmd2 _ hsub2, a0]
    · show u.openReads = s0.openReads
      rw [a3]
      show (fun k => if k = consumerKey cmd1 then t.openReads k + -1 else t.openReads k) = _
      rw [g3, f3, hs1]
      funext k
      by_cases hk : k = consumerKey cmd1
      · simp [hk, State.record]
      · simp [hk, State.record]
    · intro fuel3 input3 cmd3 hp3 hsub3
      exact Get_open_not_rejected env sep fuel3 input3 _ cmd3 hp3 hsub3 a1

/-- Witness of C8: `q/open` then `q/abort` on the queue `[A, B]`. -/
theorem open_then_abort_round_trip_witness :
    ∃ t, Get calmEnv "::".toList 1 ["GET".toList, "q/open".toList] freshState =
        .returned (none, t) ∧
      ∃ u, Get calmEnv "::".toList 1 ["GET".toList, "q/abort".toList] t = .returned (none, u) ∧
        u.log = t.log ++ [.getConsumer (consumerKey openCmd),
          .putBack (consumerKey openCmd) "A".toList,
          .updateOpenReads (consumerKey openCmd) (-1)] ∧
        u.openReads = freshState.openReads ∧ u.currentValue = none ∧ u.currentCommand = none := by
  obtain ⟨t, h0, h1⟩ :=
    open_then_abort_round_trip calmEnv "::".toList 1 ["GET".toList, "q/open".toList]
      ["GET".toList, "q/abort".toList] freshState freshState
      (getConsumer calmEnv openCmd freshState).2
      ((dequeueLoop calmEnv 1 (consumerKey openCmd) openCmd
        (getConsumer calmEnv openCmd freshState).2).getD ([], freshState)).2
      openCmd abortCmd "A".toList (by decide) (Or.inl ⟨rfl, rfl, rfl⟩) rfl rfl (by decide)
      (by decide) rfl
  obtain ⟨u, a0, a1, a2, a3, a4, -⟩ := h1 rfl rfl
  exact ⟨t, h0, u, a0, a1, a2, a3, a4⟩

/-- C9 (abort is atomic on failure): with a value and its command held, an
`abort` whose consumer resolution or whose requeue fails returns the command
error, writes nothing (no terminator), and leaves the held value, the stored
command, every open-read counter, the queues and the GET counter unchanged. -/
theorem Get_abort_failure_keeps_transaction (env : Env) (sep : Str) (fuel : Nat)
    (input : List Str) (s : State) (cmd cc : Command) (v : Str)
    (hp : parseGetCommand sep input = some cmd) (hsub : cmd.SubCommand = "abort".toList)
    (hv : s.currentValue = some v) (hc : s.currentCommand = some cc)
    (hfail : env.resolveFails s.log.length (consumerKey cc) = true ∨
      env.putBackFails (s.log.length + 1) (consumerKey cc) v = true) :
    ∃ t, Get env sep fuel input s = .returned (some .common, t) ∧ t.out = s.out ∧
      t.currentValue = s.currentValue ∧ t.currentCommand = s.currentCommand ∧
      t.openReads = s.openReads ∧ t.items = s.items ∧ t.cmdGet = s.cmdGet := by
  obtain ⟨t, h0, h1, h2, h3, h4, h5, h6, -⟩ := abort_fails env s v cc hv hc hfail
  refine ⟨t, ?_, h5, h1, h2, h3, h4, h6⟩
  rw [Get_of_dispatch env sep fuel input s cmd hp, dispatch_abort env fuel cmd s hsub, h0]

/-- Witness of C9: `q/abort` while `A` is held and the repository fails. -/
theorem Get_abort_failure_keeps_transaction_witness :
    ∃ t, Get failingEnv "::".toList 1 ["GET".toList, "q/abort".toList] heldState =
        .returned (some .common, t) ∧ t.out = heldState.out ∧
      t.currentValue = heldState.currentValue ∧ t.currentCommand = heldState.currentCommand ∧
      t.openReads = heldState.openReads ∧ t.items = heldState.items ∧
      t.cmdGet = heldState.cmdGet :=
  Get_abort_failure_keeps_transaction failingEnv "::".toList 1
    ["GET".toList, "q/abort".toList] heldState abortCmd openCmd "A".toList (by decide) rfl rfl rfl
    (Or.inl rfl)

/-- C10 (abort targets the transaction's own queue): after a GET on `q1` opened
a transaction holding `V`, a GET `q2/abort` resolves the consumer of `q1`'s
queue and group and calls nothing else than `PutBack(V)` and
`UpdateOpenReads(-1)` on it; the queue and counter of every other consumer (that
of `q2` included when it differs) are unchanged and no call names it; when
resolution and requeue succeed `V` is back at the head of `q1`'s queue and its
counter is one lower.  With no value held, `abort` calls no collaborator and
changes nothing but the terminator it writes. -/
theorem Get_abort_targets_opening_consumer (env : Env) (sep : Str) (fuel : Nat)
    (input1 input2 : List Str) (s s0 s1 s3 : State) (cmd1 cmd2 : Command) (V : Str)
    (hp1 : parseGetCommand sep input1 = some cmd1)
    (hphase : (cmd1.SubCommand = "open".toList ∧ s.currentValue = none ∧ s0 = s) ∨
      (cmd1.SubCommand = "close/open".toList ∧ getClose env cmd1 s = (none, s0)))
    (hres : getConsumer env cmd1 s0 = (some (consumerKey cmd1), s1))
    (hloop : dequeueLoop env fuel (consumerKey cmd1) cmd1 s1 = some (V, s3))
    (hV : V ≠ [])
    (hp2 : parseGetCommand sep input2 = some cmd2) (hsub2 : cmd2.SubCommand = "abort".toList) :
    (∃ t, Get env sep fuel input1 s = .returned (none, t) ∧
      (∃ e u l, Get env sep fuel input2 t = .returned (e, u) ∧
        u.log = t.log ++ .getConsumer (consumerKey cmd1) :: l ∧
        (∀ x ∈ l, x = .putBack (consumerKey cmd1) V ∨
          x = .updateOpenReads (consumerKey cmd1) (-1)) ∧
        ∀ k, k ≠ consumerKey cmd1 → u.items k = t.items k ∧ u.openReads k = t.openReads k) ∧
      (env.resolveFails t.log.length (consumerKey cmd1) = false →
        env.putBackFails (t.log.length + 1) (consumerKey cmd1) V = false →
        ∃ u, Get env sep fuel input2 t = .returned (none, u) ∧
          u.items (consumerKey cmd1) = V :: t.items (consumerKey cmd1) ∧
          u.openReads (consumerKey cmd1) = t.openReads (consumerKey cmd1) - 1 ∧
          u.log = t.log ++ [.getConsumer (consumerKey cmd1), .putBack (consumerKey cmd1) V,
            .updateOpenReads (consumerKey cmd1) (-1)])) ∧
    (∀ idle : State, idle.currentValue = none →
      Get env sep fuel input2 idle =
        .returned (none, { idle with out := idle.out ++ endMessage })) := by
  constructor
  · obtain ⟨hd, hcv, hopen⟩ := dispatch_open_phase env fuel cmd1 s s0 hphase
    obtain ⟨t, g0, g1, g2, -⟩ := get_opens env fuel cmd1 s0 s1 s3 _ V hcv hopen hres hloop hV
    refine ⟨{ t with out := t.out ++ endMessage }, ?_, ?_, ?_⟩
    · rw [Get_of_dispatch env sep fuel input1 s cmd1 hp1, hd, g0]
    · exact Get_abort_held env sep fuel input2 _ cmd2 cmd1 V hp2 hsub2 g1 g2
    · intro hr hput
      obtain ⟨u, a0, -, -, a3, a4, a5, -, -⟩ :=
        abort_ok env { t with out := t.out ++ endMessage } V cmd1 g1 g2 hr hput
      refine ⟨{ u with out := u.out ++ endMessage }, ?_, ?_, ?_, a5⟩
      · rw [Get_of_dispatch env sep fuel input2 _ cmd2 hp2, dispatch_abort env fuel cmd2 _ hsub2,
          a0]
      · show u.items (consumerKey cmd1) = _
        rw [a4]; simp
      · show u.openReads (consumerKey cmd1) = _
        rw [a3]; simp [Int.sub_eq_add_neg]
  · intro idle hidle
    rw [Get_of_dispatch env sep fuel input2 idle cmd2 hp2, dispatch_abort env fuel cmd2 idle hsub2,
      abort_idle env idle hidle]

/-- Witness of C10: the transaction is opened by `q/open` and aborted by
`other/abort`; the value goes back to `q` and `other` is not touched. -/
theorem Get_abort_targets_opening_consumer_witness :
    ∃ t, Get calmEnv "::".toList 1 ["GET".toList, "q/open".toList] freshState =
        .returned (none, t) ∧
      ∃ u, Get calmEnv "::".toList 1 ["GET".toList, "other/abort".toList] t =
          .returned (none, u) ∧
        u.items qKey = "A".toList :: t.items qKey ∧
        u.openReads qKey = t.openReads qKey - 1 ∧
        u.log = t.log ++ [.getConsumer qKey, .putBack qKey "A".toList,
          .updateOpenReads qKey (-1)] := by
  obtain ⟨⟨t, h0, -, h2⟩, -⟩ :=
    Get_abort_targets_opening_consumer calmEnv "::".toList 1 ["GET".toList, "q/open".toList]
      ["GET".toList, "other/abort".toList] freshState freshState
      (getConsumer calmEnv openCmd freshState).2
      ((dequeueLoop calmEnv 1 (consumerKey openCmd) openCmd
        (getConsumer calmEnv openCmd freshState).2).getD ([], freshState)).2
      openCmd otherAbortCmd "A".toList (by decide) (Or.inl ⟨rfl, rfl, rfl⟩) rfl rfl (by decide)
      (by decide) rfl
  obtain ⟨u, a0, a1, a2, a3⟩ := h2 rfl rfl
  exact ⟨t, h0, u, a0, a1, a2, a3⟩

/-! ## Effects of the handlers -/

/-- What the polling loop writes: the `VALUE` block when it ends with a value,
nothing when it ends at the deadline. -/
theorem pollLoop_out (env : Env) (q : Key) (cmd : Command) (deadline : Int) :
    ∀ (fuel : Nat) (s : State) (V : Str) (s3 : State),
      pollLoop env q cmd deadline fuel s = some (V, s3) →
      (V ≠ [] ∧ s3.out = s.out ++ valueMessage cmd.QueueName V) ∨ (V = [] ∧ s3.out = s.out) := by
  intro fuel
  induction fuel with
  | zero => intro s V s3 h; simp [pollLoop] at h
  | succ n ih =>
    intro s V s3 h
    rw [pollLoop] at h
    have hout : (getNext q s).2.out = s.out := by
      simp only [getNext]; split <;> rfl
    by_cases hv : 0 < (getNext q s).1.length
    · simp only [hv, if_true, Option.some.injEq, Prod.mk.injEq] at h
      obtain ⟨rfl, rfl⟩ := h
      exact Or.inl ⟨List.length_pos.mp hv, by simp [hout]⟩
    · simp only [hv, if_false] at h
      by_cases hd : deadline < (now env (getNext q s).2).1
      · simp only [hd, if_true, Option.some.injEq, Prod.mk.injEq] at h
        obtain ⟨rfl, rfl⟩ := h
        refine Or.inr ⟨?_, ?_⟩
        · exact List.length_eq_zero.mp (Nat.eq_zero_of_not_pos hv)
        · simp [now, State.record, hout]
      · simp only [hd, if_false] at h
        rcases ih _ _ _ h with ⟨a, b⟩ | ⟨a, b⟩
        · exact Or.inl ⟨a, by rw [b]; simp [sleep, now, State.record, hout]⟩
        · exact Or.inr ⟨a, by rw [b]; simp [sleep, now, State.record, hout]⟩

theorem dequeueLoop_out (env : Env) (fuel : Nat) (q : Key) (cmd : Command) (s : State)
    (V : Str) (s3 : State) (h : dequeueLoop env fuel q cmd s = some (V, s3)) :
    (V ≠ [] ∧ s3.out = s.out ++ valueMessage cmd.QueueName V) ∨ (V = [] ∧ s3.out = s.out) := by
  rcases pollLoop_out env q cmd _ fuel _ V s3 h with ⟨a, b⟩ | ⟨a, b⟩
  · exact Or.inl ⟨a, by rw [b]; simp [now, State.record]⟩
  · exact Or.inr ⟨a, by rw [b]; simp [now, State.record]⟩

/-- Every way source `get` can return. -/
theorem get_returned (env : Env) (fuel : Nat) (cmd : Command) (s t : State) (e : Option Err)
    (h : get env fuel cmd s = .returned (e, t)) :
    (e = some .closeCurrentItemFirst ∧ t = s ∧ s.currentValue ≠ none) ∨
    (e = some .common ∧ t = s.record (.getConsumer (consumerKey cmd)) ∧
      env.resolveFails s.log.length (consumerKey cmd) = true) ∨
    (e = none ∧ s.currentValue = none ∧
      env.resolveFails s.log.length (consumerKey cmd) = false ∧
      ∃ V s3, dequeueLoop env fuel (consumerKey cmd) cmd
          (s.record (.getConsumer (consumerKey cmd))) = some (V, s3) ∧
        t.cmdGet = (s.cmdGet + 1) % 2 ^ 64 ∧ t.out = s3.out ∧ t.items = s3.items ∧
        ((contains cmd.SubCommand "open".toList = true ∧ V ≠ [] ∧ t.currentValue = some V ∧
            t.currentCommand = some cmd ∧
            t.openReads = (fun k => if k = consumerKey cmd then s.openReads k + 1
              else s.openReads k) ∧
            t.log = s3.log ++ [.updateOpenReads (consumerKey cmd) 1]) ∨
         ((contains cmd.SubCommand "open".toList = false ∨ V = []) ∧ t.currentValue = none ∧
            t.currentCommand = s.currentCommand ∧ t.openReads = s.openReads ∧
            t.log = s3.log))) := by
  unfold get at h
  cases hcv : s.currentValue with
  | some v =>
    simp only [hcv, Option.isSome_some, if_true, Outcome.returned.injEq, Prod.mk.injEq] at h
    exact Or.inl ⟨h.1.symm, h.2.symm, by simp⟩
  | none =>
    simp only [hcv, Option.isSome_none, Bool.false_eq_true, if_false] at h
    by_cases hr : env.resolveFails s.log.length (consumerKey cmd) = true
    · rw [getConsumer_fails env cmd s hr] at h
      simp only [Outcome.returned.injEq, Prod.mk.injEq] at h
      exact Or.inr (Or.inl ⟨h.1.symm, h.2.symm, hr⟩)
    · have hr2 : env.resolveFails s.log.length (consumerKey cmd) = false := by simpa using hr
      rw [getConsumer_ok env cmd s hr2] at h
      cases hl : dequeueLoop env fuel (consumerKey cmd) cmd
          (s.record (.getConsumer (consumerKey cmd))) with
      | none => simp [hl] at h
      | some p =>
        obtain ⟨V, s3⟩ := p
        obtain ⟨f1, f2, f3, f4, -⟩ := dequeueLoop_frame env fuel _ cmd _ V s3 hl
        simp only [hl, Outcome.returned.injEq, Prod.mk.injEq] at h
        obtain ⟨rfl, rfl⟩ := h
        refine Or.inr (Or.inr ⟨rfl, rfl, hr2, V, s3, rfl, ?_⟩)
        by_cases hc : contains cmd.SubCommand "open".toList = true ∧ 0 < V.length
        · rw [if_pos hc]
          refine ⟨by simp [updateOpenReads, setCurrentState, State.record, f4], rfl, rfl,
            Or.inl ⟨hc.1, List.length_pos.mp hc.2, rfl, rfl, ?_, rfl⟩⟩
          simp [updateOpenReads, setCurrentState, State.record, f3]
        · rw [if_neg hc]
          refine ⟨by simp [f4, State.record], rfl, rfl, Or.inr ⟨?_, ?_, ?_, ?_, rfl⟩⟩
          · by_cases h1 : contains cmd.SubCommand "open".toList = true
            · right
              by_contra hV
              exact hc ⟨h1, List.length_pos.mpr hV⟩
            · left; simpa using h1
          · simpa [State.record, hcv] using f1
          · simpa [State.record] using f2
          · simpa [State.record] using f3

/-- The source's tests `len(value) > 0` are tests for a non-empty list: the byte
length is positive exactly when there is a character. -/
theorem byteLen_pos_iff (s : Str) : 0 < byteLen s ↔ 0 < s.length := by
  cases s with
  | nil => simp [byteLen]
  | cons c cs =>
    have h : 0 < c.utf8Size := Char.utf8Size_pos c
    simp only [byteLen, List.map_cons, List.sum_cons, List.length_cons]
    omega

/-- Every way source `getClose` can return. -/
theorem getClose_returned (env : Env) (cmd : Command) (s t : State) (e : Option Err)
    (h : getClose env cmd s = (e, t)) :
    (e = some .common ∧ t = s.record (.getConsumer (consumerKey cmd)) ∧
      env.resolveFails s.log.length (consumerKey cmd) = true) ∨
    (e = none ∧ env.resolveFails s.log.length (consumerKey cmd) = false ∧
      t.currentValue = none ∧ t.out = s.out ∧ t.cmdGet = s.cmdGet ∧ t.items = s.items ∧
      ((∃ v, s.currentValue = some v ∧ t.currentCommand = none ∧
          t.openReads = (fun k => if k = consumerKey cmd then s.openReads k + -1
            else s.openReads k) ∧
          t.log = s.log ++ [.getConsumer (consumerKey cmd),
            .updateOpenReads (consumerKey cmd) (-1)]) ∨
       (s.currentValue = none ∧ t.currentCommand = s.currentCommand ∧
          t.openReads = s.openReads ∧ t.log = s.log ++ [.getConsumer (consumerKey cmd)]))) := by
  by_cases hr : env.resolveFails s.log.length (consumerKey cmd) = true
  · left
    unfold getClose at h
    rw [getConsumer_fails env cmd s hr] at h
    simp only [Prod.mk.injEq] at h
    exact ⟨h.1.symm, h.2.symm, hr⟩
  · right
    have hr2 : env.resolveFails s.log.length (consumerKey cmd) = false := by simpa using hr
    obtain ⟨u, h0, h1, h2, h3, h4, h5, h6⟩ := getClose_ok env cmd s hr2
    rw [h0] at h
    simp only [Prod.mk.injEq] at h
    obtain ⟨rfl, rfl⟩ := h
    refine ⟨rfl, hr2, h1, h2, h3, h4, ?_⟩
    cases hv : s.currentValue with
    | none => exact Or.inr ⟨rfl, h6 hv⟩
    | some v => exact Or.inl ⟨v, rfl, h5 v hv⟩

/-- Every way source `abort` can return. -/
theorem abort_returned (env : Env) (s t : State) (e : Option Err)
    (h : abort env s = .returned (e, t)) :
    (s.currentValue = none ∧ e = none ∧ t = s) ∨
    (∃ v cc, s.currentValue = some v ∧ s.currentCommand = some cc ∧
      t.out = s.out ∧ t.cmdGet = s.cmdGet ∧
      ((e = some .common ∧ t.currentValue = s.currentValue ∧
          t.currentCommand = s.currentCommand ∧ t.openReads = s.openReads ∧
          t.items = s.items ∧
          ∃ l, t.log = s.log ++ l ∧
            ∀ x ∈ l, x = .getConsumer (consumerKey cc) ∨ x = .putBack (consumerKey cc) v) ∨
       (e = none ∧ t.currentValue = none ∧ t.currentCommand = none ∧
          t.openReads = (fun k => if k = consumerKey cc then s.openReads k + -1
            else s.openReads k) ∧
          t.items = (fun k => if k = consumerKey cc then v :: s.items k else s.items k) ∧
          t.log = s.log ++ [.getConsumer (consumerKey cc), .putBack (consumerKey cc) v,
            .updateOpenReads (consumerKey cc) (-1)]))) := by
  cases hv : s.currentValue with
  | none =>
    rw [abort_idle env s hv] at h
    simp only [Outcome.returned.injEq, Prod.mk.injEq] at h
    exact Or.inl ⟨rfl, h.1.symm, h.2.symm⟩
  | some v =>
    right
    cases hc : s.currentCommand with
    | none =>
      unfold abort at h
      rw [hv, hc] at h
      simp at h
    | some cc =>
      refine ⟨v, cc, rfl, rfl, ?_⟩
      by_cases hfail : env.resolveFails s.log.length (consumerKey cc) = true ∨
          env.putBackFails (s.log.length + 1) (consumerKey cc) v = true
      · obtain ⟨u, h0, h1, h2, h3, h4, h5, h6, h7⟩ := abort_fails env s v cc hv hc hfail
        rw [h0] at h
        simp only [Outcome.returned.injEq, Prod.mk.injEq] at h
        obtain ⟨rfl, rfl⟩ := h
        exact ⟨h5, h6, Or.inl ⟨rfl, by rw [h1, hv], by rw [h2, hc], h3, h4, h7⟩⟩
      · have hr : env.resolveFails s.log.length (consumerKey cc) = false := by
          by_contra h9; exact hfail (Or.inl (by simpa using h9))
        have hput : env.putBackFails (s.log.length + 1) (consumerKey cc) v = false := by
          by_contra h9; exact hfail (Or.inr (by simpa using h9))
        obtain ⟨u, h0, h1, h2, h3, h4, h5, h6, h7⟩ := abort_ok env s v cc hv hc hr hput
        rw [h0] at h
        simp only [Outcome.returned.injEq, Prod.mk.injEq] at h
        obtain ⟨rfl, rfl⟩ := h
        exact ⟨h6, h7, Or.inr ⟨rfl, h1, h2, h3, h4, h5⟩⟩

/-- Every way source `peek` can return. -/
theorem peek_returned (env : Env) (cmd : Command) (s t : State) (e : Option Err)
    (h : peek env cmd s = (e, t)) :
    (e = some .common ∧ t = s.record (.getConsumer (consumerKey cmd)) ∧
      env.resolveFails s.log.length (consumerKey cmd) = true) ∨
    (e = none ∧ env.resolveFails s.log.length (consumerKey cmd) = false ∧
      t.currentValue = s.currentValue ∧ t.currentCommand = s.currentCommand ∧
      t.openReads = s.openReads ∧ t.items = s.items ∧
      t.cmdGet = (s.cmdGet + 1) % 2 ^ 64 ∧
      t.log = s.log ++ [.getConsumer (consumerKey cmd), .peek (consumerKey cmd)] ∧
      t.out = s.out ++
        (if 0 < ((s.items (consumerKey cmd)).headD []).length then
          valueMessage cmd.QueueName ((s.items (consumerKey cmd)).headD []) else [])) := by
  unfold peek at h
  by_cases hr : env.resolveFails s.log.length (consumerKey cmd) = true
  · left
    rw [getConsumer_fails env cmd s hr] at h
    simp only [Prod.mk.injEq] at h
    exact ⟨h.1.symm, h.2.symm, hr⟩
  · right
    have hr2 : env.resolveFails s.log.length (consumerKey cmd) = false := by simpa using hr
    rw [getConsumer_ok env cmd s hr2] at h
    simp only [peekHead, State.record] at h
    generalize (s.items (consumerKey cmd)).headD [] = V at h ⊢
    by_cases hl : 0 < V.length
    · simp only [hl, if_true, Prod.mk.injEq] at h
      obtain ⟨rfl, rfl⟩ := h
      simp [hr2, hl]
    · simp only [hl, if_false, Prod.mk.injEq] at h
      obtain ⟨rfl, rfl⟩ := h
      simp [hr2, hl]

/-- The branch of the `switch` taken for each sub-command. -/
theorem dispatch_cases (env : Env) (fuel : Nat) (cmd : Command) (s : State) :
    ((cmd.SubCommand = [] ∨ cmd.SubCommand = "open".toList) ∧
      dispatch env fuel cmd s = get env fuel cmd s) ∨
    (cmd.SubCommand = "close".toList ∧
      dispatch env fuel cmd s = .returned (getClose env cmd s)) ∨
    (cmd.SubCommand = "close/open".toList ∧
      dispatch env fuel cmd s =
        match getClose env cmd s with
        | (none, s1) => get env fuel cmd s1
        | (some e, s1) => .returned (some e, s1)) ∨
    (cmd.SubCommand = "abort".toList ∧ dispatch env fuel cmd s = abort env s) ∨
    (cmd.SubCommand = "peek".toList ∧
      dispatch env fuel cmd s = .returned (peek env cmd s)) ∨
    (cmd.SubCommand ∉ subCommands ∧
      dispatch env fuel cmd s = .returned (some .invalidCommand, s)) := by
  by_cases h1 : cmd.SubCommand = [] ∨ cmd.SubCommand = "open".toList
  · exact Or.inl ⟨h1, dispatch_open env fuel cmd s h1⟩
  by_cases h2 : cmd.SubCommand = "close".toList
  · exact Or.inr (Or.inl ⟨h2, dispatch_close env fuel cmd s h2⟩)
  by_cases h3 : cmd.SubCommand = "close/open".toList
  · exact Or.inr (Or.inr (Or.inl ⟨h3, dispatch_closeOpen env fuel cmd s h3⟩))
  by_cases h4 : cmd.SubCommand = "abort".toList
  · exact Or.inr (Or.inr (Or.inr (Or.inl ⟨h4, dispatch_abort env fuel cmd s h4⟩)))
  by_cases h5 : cmd.SubCommand = "peek".toList
  · refine Or.inr (Or.inr (Or.inr (Or.inr (Or.inl ⟨h5, ?_⟩))))
    unfold dispatch
    rw [h5]
    rfl
  · refine Or.inr (Or.inr (Or.inr (Or.inr (Or.inr ⟨?_, ?_⟩))))
    · simp only [subCommands, List.mem_cons, List.mem_singleton, List.not_mem_nil, or_false]
      push_neg at h1
      rintro (h | h | h | h | h | h)
      · exact h1.1 h
      · exact h1.2 h
      · exact h2 h
      · exact h3 h
      · exact h4 h
      · exact h5 h
    · unfold dispatch
      rw [if_neg h1, if_neg h2, if_neg h3, if_neg h4, if_neg h5]

/-- A returned `Get` is a parse followed by a returned dispatch; the terminator
is appended exactly when there is no error. -/
theorem Get_returned (env : Env) (sep : Str) (fuel : Nat) (input : List Str) (s t : State)
    (e : Option Err) (h : Get env sep fuel input s = .returned (e, t)) :
    ∃ cmd t0, parseGetCommand sep input = some cmd ∧
      dispatch env fuel cmd s = .returned (e, t0) ∧
      ((e = none ∧ t = { t0 with out := t0.out ++ endMessage }) ∨ (e ≠ none ∧ t = t0)) := by
  cases hp : parseGetCommand sep input with
  | none => simp [Get, hp] at h
  | some cmd =>
    rw [Get_of_dispatch env sep fuel input s cmd hp] at h
    cases hd : dispatch env fuel cmd s with
    | panicked => simp [hd] at h
    | running => simp [hd] at h
    | returned p =>
      obtain ⟨e0, t0⟩ := p
      cases e0 with
      | none =>
        simp only [hd, Outcome.returned.injEq, Prod.mk.injEq] at h
        obtain ⟨rfl, rfl⟩ := h
        exact ⟨cmd, t0, rfl, hd, Or.inl ⟨rfl, rfl⟩⟩
      | some x =>
        simp only [hd, Outcome.returned.injEq, Prod.mk.injEq] at h
        obtain ⟨rfl, rfl⟩ := h
        exact ⟨cmd, t0, rfl, hd, Or.inr ⟨by simp, rfl⟩⟩

/-- Summary of a returned `get`: output, GET counter and transaction state. -/
theorem get_effect (env : Env) (fuel : Nat) (cmd : Command) (s t : State) (e : Option Err)
    (h : get env fuel cmd s = .returned (e, t)) :
    (e ≠ none → t.out = s.out ∧ t.cmdGet = s.cmdGet ∧ t.currentValue = s.currentValue ∧
      t.currentCommand = s.currentCommand ∧ e ≠ some .invalidCommand) ∧
    (e = none → t.cmdGet = (s.cmdGet + 1) % 2 ^ 64 ∧
      (t.out = s.out ∨ ∃ V, V ≠ [] ∧ t.out = s.out ++ valueMessage cmd.QueueName V) ∧
      ((t.currentValue = s.currentValue ∧ t.currentCommand = s.currentCommand) ∨
        ∃ V, V ≠ [] ∧ t.currentValue = some V ∧ t.currentCommand = some cmd ∧
          contains cmd.SubCommand "open".toList = true)) := by
  rcases get_returned env fuel cmd s t e h with ⟨rfl, rfl, -⟩ | ⟨rfl, rfl, -⟩ |
    ⟨rfl, hcv, -, V, s3, hl, h1, h2, -, h4⟩
  · exact ⟨fun _ => ⟨rfl, rfl, rfl, rfl, by simp⟩, fun h => by simp at h⟩
  · exact ⟨fun _ => ⟨rfl, rfl, rfl, rfl, by simp⟩, fun h => by simp at h⟩
  · refine ⟨fun h => absurd rfl h, fun _ => ⟨h1, ?_, ?_⟩⟩
    · rcases dequeueLoop_out env fuel _ cmd _ V s3 hl with ⟨a, b⟩ | ⟨a, b⟩
      · exact Or.inr ⟨V, a, by rw [h2, b]; rfl⟩
      · exact Or.inl (by rw [h2, b]; rfl)
    · rcases h4 with ⟨a, b, c, d, -, -⟩ | ⟨-, c, d, -, -⟩
      · exact Or.inr ⟨V, b, c, d, a⟩
      · exact Or.inl ⟨by rw [c, hcv], d⟩

/-- Summary of a returned dispatch: nothing is written and the GET counter stays
on error; without error at most one `VALUE` block is written, the GET counter
moves by one exactly for the sub-commands that fetch (empty, `open`,
`close/open`, `peek`), and the transaction state is kept, cleared or set as a
whole. -/
theorem dispatch_effect (env : Env) (fuel : Nat) (cmd : Command) (s t : State) (e : Option Err)
    (h : dispatch env fuel cmd s = .returned (e, t)) :
    (e ≠ none → t.out = s.out ∧ t.cmdGet = s.cmdGet) ∧
    (e = none → t.out = s.out ∨ ∃ V, V ≠ [] ∧ t.out = s.out ++ valueMessage cmd.QueueName V) ∧
    (e = none →
      (cmd.SubCommand = [] ∨ cmd.SubCommand = "open".toList ∨
        cmd.SubCommand = "close/open".toList ∨ cmd.SubCommand = "peek".toList) →
      t.cmdGet = (s.cmdGet + 1) % 2 ^ 64) ∧
    (e = none → (cmd.SubCommand = "close".toList ∨ cmd.SubCommand = "abort".toList) →
      t.cmdGet = s.cmdGet) ∧
    (e = some .invalidCommand ↔ cmd.SubCommand ∉ subCommands) ∧
    ((t.currentValue = s.currentValue ∧ t.currentCommand = s.currentCommand) ∨
      (t.currentValue = none ∧ t.currentCommand = none ∧
        (cmd.SubCommand = "close".toList ∨ cmd.SubCommand = "close/open".toList ∨
          cmd.SubCommand = "abort".toList)) ∨
      ∃ V, V ≠ [] ∧ t.currentValue = some V ∧ t.currentCommand = some cmd ∧
        contains cmd.SubCommand "open".toList = true ∧ e = none) := by
  rcases dispatch_cases env fuel cmd s with ⟨hs, hd⟩ | ⟨hs, hd⟩ | ⟨hs, hd⟩ | ⟨hs, hd⟩ |
    ⟨hs, hd⟩ | ⟨hs, hd⟩
  · -- empty sub-command or `open`
    rw [hd] at h
    obtain ⟨g1, g2⟩ := get_effect env fuel cmd s t e h
    have hmem : cmd.SubCommand ∈ subCommands := by
      rcases hs with hs | hs <;> rw [hs] <;> decide
    have hnc : ¬ (cmd.SubCommand = "close".toList ∨ cmd.SubCommand = "abort".toList) := by
      rcases hs with hs | hs <;> rw [hs] <;> decide
    refine ⟨fun he => ⟨(g1 he).1, (g1 he).2.1⟩, fun he => (g2 he).2.1, fun he _ => (g2 he).1,
      fun _ hc => absurd hc hnc, ⟨fun he => ?_, fun hn => absurd hmem hn⟩, ?_⟩
    · exact absurd he (g1 (by rw [he]; simp)).2.2.2.2
    · cases e with
      | some x => exact Or.inl ⟨(g1 (by simp)).2.2.1, (g1 (by simp)).2.2.2.1⟩
      | none =>
        rcases (g2 rfl).2.2 with a | ⟨V, a, b, c, d⟩
        · exact Or.inl a
        · exact Or.inr (Or.inr ⟨V, a, b, c, d, rfl⟩)
  · -- `close`
    rw [hd] at h
    simp only [Outcome.returned.injEq] at h
    have hmem : cmd.SubCommand ∈ subCommands := by rw [hs]; decide
    have hnc : ¬ (cmd.SubCommand = [] ∨ cmd.SubCommand = "open".toList ∨
        cmd.SubCommand = "close/open".toList ∨ cmd.SubCommand = "peek".toList) := by
      rw [hs]; decide
    rcases getClose_returned env cmd s t e h with ⟨rfl, rfl, -⟩ |
      ⟨rfl, -, c1, c2, c3, -, c5⟩
    · exact ⟨fun _ => ⟨rfl, rfl⟩, fun he => by simp at he, fun he => by simp at he,
        fun he => by simp at he, ⟨fun he => by simp at he, fun hn => absurd hmem hn⟩,
        Or.inl ⟨rfl, rfl⟩⟩
    · refine ⟨fun he => absurd rfl he, fun _ => Or.inl c2, fun _ hc => absurd hc hnc,
        fun _ _ => c3, ⟨fun he => by simp at he, fun hn => absurd hmem hn⟩, ?_⟩
      rcases c5 with ⟨v, -, d1, -, -⟩ | ⟨d0, d1, -, -⟩
      · exact Or.inr (Or.inl ⟨c1, d1, Or.inl hs⟩)
      · exact Or.inl ⟨by rw [c1, d0], d1⟩
  · -- `close/open`
    rw [hd] at h
    have hmem : cmd.SubCommand ∈ subCommands := by rw [hs]; decide
    have hnc : ¬ (cmd.SubCommand = "close".toList ∨ cmd.SubCommand = "abort".toList) := by
      rw [hs]; decide
    cases hc : getClose env cmd s with
    | mk e1 s1 =>
      rw [hc] at h
      rcases getClose_returned env cmd s s1 e1 hc with ⟨rfl, rfl, -⟩ |
        ⟨rfl, -, c1, c2, c3, -, c5⟩
      · simp only [Outcome.returned.injEq, Prod.mk.injEq] at h
        obtain ⟨rfl, rfl⟩ := h
        exact ⟨fun _ => ⟨rfl, rfl⟩, fun he => by simp at he, fun he => by simp at he,
          fun he => by simp at he, ⟨fun he => by simp at he, fun hn => absurd hmem hn⟩,
          Or.inl ⟨rfl, rfl⟩⟩
      · simp only at h
        obtain ⟨g1, g2⟩ := get_effect env fuel cmd s1 t e h
        have hclr : (s1.currentValue = s.currentValue ∧ s1.currentCommand = s.currentCommand) ∨
            (s1.currentValue = none ∧ s1.currentCommand = none) := by
          rcases c5 with ⟨v, -, d1, -, -⟩ | ⟨d0, d1, -, -⟩
          · exact Or.inr ⟨c1, d1⟩
          · exact Or.inl ⟨by rw [c1, d0], d1⟩
        refine ⟨fun he => ⟨by rw [(g1 he).1, c2], by rw [(g1 he).2.1, c3]⟩, fun he => ?_,
          fun he _ => by rw [(g2 he).1, c3], fun _ hc => absurd hc hnc,
          ⟨fun he => ?_, fun hn => absurd hmem hn⟩, ?_⟩
        · rcases (g2 he).2.1 with a | ⟨V, a, b⟩
          · exact Or.inl (by rw [a, c2])
          · exact Or.inr ⟨V, a, by rw [b, c2]⟩
        · exact absurd he (g1 (by rw [he]; simp)).2.2.2.2
        · have hkeep : (t.currentValue = s1.currentValue ∧
              t.currentCommand = s1.currentCommand) ∨
              ∃ V, V ≠ [] ∧ t.currentValue = some V ∧ t.currentCommand = some cmd ∧
                contains cmd.SubCommand "open".toList = true ∧ e = none := by
            cases e with
            | some x => exact Or.inl ⟨(g1 (by simp)).2.2.1, (g1 (by simp)).2.2.2.1⟩
            | none =>
              rcases (g2 rfl).2.2 with a | ⟨V, a, b, c, d⟩
              · exact Or.inl a
              · exact Or.inr ⟨V, a, b, c, d, rfl⟩
          rcases hkeep with ⟨k1, k2⟩ | hopen
          · rcases hclr with ⟨a, b⟩ | ⟨a, b⟩
            · exact Or.inl ⟨by rw [k1, a], by rw [k2, b]⟩
            · exact Or.inr (Or.inl ⟨by rw [k1, a], by rw [k2, b], Or.inr (Or.inl hs)⟩)
          · exact Or.inr (Or.inr hopen)
  · -- `abort`
    rw [hd] at h
    have hmem : cmd.SubCommand ∈ subCommands := by rw [hs]; decide
    have hnc : ¬ (cmd.SubCommand = [] ∨ cmd.SubCommand = "open".toList ∨
        cmd.SubCommand = "close/open".toList ∨ cmd.SubCommand = "peek".toList) := by
      rw [hs]; decide
    rcases abort_returned env s t e h with ⟨-, rfl, rfl⟩ | ⟨v, cc, -, -, a1, a2, a3⟩
    · exact ⟨fun he => absurd rfl he, fun _ => Or.inl rfl, fun _ hc => absurd hc hnc,
        fun _ _ => rfl, ⟨fun he => by simp at he, fun hn => absurd hmem hn⟩, Or.inl ⟨rfl, rfl⟩⟩
    · rcases a3 with ⟨rfl, b1, b2, -⟩ | ⟨rfl, b1, b2, -⟩
      · exact ⟨fun _ => ⟨a1, a2⟩, fun he => by simp at he, fun he => by simp at he,
          fun he => by simp at he, ⟨fun he => by simp at he, fun hn => absurd hmem hn⟩,
          Or.inl ⟨b1, b2⟩⟩
      · exact ⟨fun he => absurd rfl he, fun _ => Or.inl a1, fun _ hc => absurd hc hnc,
          fun _ _ => a2, ⟨fun he => by simp at he, fun hn => absurd hmem hn⟩,
          Or.inr (Or.inl ⟨b1, b2, Or.inr (Or.inr hs)⟩)⟩
  · -- `peek`
    rw [hd] at h
    simp only [Outcome.returned.injEq] at h
    have hmem : cmd.SubCommand ∈ subCommands := by rw [hs]; decide
    have hnc : ¬ (cmd.SubCommand = "close".toList ∨ cmd.SubCommand = "abort".toList) := by
      rw [hs]; decide
    rcases peek_returned env cmd s t e h with ⟨rfl, rfl, -⟩ |
      ⟨rfl, -, p1, p2, -, -, p5, -, p7⟩
    · exact ⟨fun _ => ⟨rfl, rfl⟩, fun he => by simp at he, fun he => by simp at he,
        fun he => by simp at he, ⟨fun he => by simp at he, fun hn => absurd hmem hn⟩,
        Or.inl ⟨rfl, rfl⟩⟩
    · refine ⟨fun he => absurd rfl he, fun _ => ?_, fun _ _ => p5, fun _ hc => absurd hc hnc,
        ⟨fun he => by simp at he, fun hn => absurd hmem hn⟩, Or.inl ⟨p1, p2⟩⟩
      by_cases hl : 0 < ((s.items (consumerKey cmd)).headD []).length
      · rw [if_pos hl] at p7
        exact Or.inr ⟨_, List.length_pos.mp hl, p7⟩
      · rw [if_neg hl] at p7
        exact Or.inl (by simpa using p7)
  · -- anything else
    rw [hd] at h
    simp only [Outcome.returned.injEq, Prod.mk.injEq] at h
    obtain ⟨rfl, rfl⟩ := h
    have h1 : ¬ (cmd.SubCommand = [] ∨ cmd.SubCommand = "open".toList ∨
        cmd.SubCommand = "close/open".toList ∨ cmd.SubCommand = "peek".toList) := by
      intro hc
      apply hs
      rcases hc with hc | hc | hc | hc <;> rw [hc] <;> decide
    exact ⟨fun _ => ⟨rfl, rfl⟩, fun he => by simp at he, fun he => by simp at he,
      fun he => by simp at he, ⟨fun _ => hs, fun _ => rfl⟩, Or.inl ⟨rfl, rfl⟩⟩

/-! ## The state machine: further settled claims -/

/-- C11 (peek has no effect on transactions): a `peek` always returns, with the
held value, the stored command, every open-read counter and every queue as
before; the only calls are `getConsumer` and `Peek` on the command's consumer
(no dequeue, no requeue); it succeeds exactly when the consumer resolves,
whether or not a transaction is open; and the response it writes is written
again by any later peek of the same input that finds the consumer's queue
unchanged. -/
theorem Get_peek_frame (env : Env) (sep : Str) (fuel : Nat) (input : List Str) (s : State)
    (cmd : Command)
    (hp : parseGetCommand sep input = some cmd) (hsub : cmd.SubCommand = "peek".toList) :
    ∃ e t, Get env sep fuel input s = .returned (e, t) ∧
      t.currentValue = s.currentValue ∧ t.currentCommand = s.currentCommand ∧
      t.openReads = s.openReads ∧ t.items = s.items ∧
      (∃ l, t.log = s.log ++ l ∧
        ∀ x ∈ l, x = .getConsumer (consumerKey cmd) ∨ x = .peek (consumerKey cmd)) ∧
      (e = none ↔ env.resolveFails s.log.length (consumerKey cmd) = false) ∧
      (e = none → ∃ resp, t.out = s.out ++ resp ∧
        ∀ (env2 : Env) (fuel2 : Nat) (s2 : State),
          s2.items (consumerKey cmd) = s.items (consumerKey cmd) →
          env2.resolveFails s2.log.length (consumerKey cmd) = false →
          ∃ u, Get env2 sep fuel2 input s2 = .returned (none, u) ∧ u.out = s2.out ++ resp) := by
  have hd : ∀ (env1 : Env) (fuel1 : Nat) (s1 : State),
      dispatch env1 fuel1 cmd s1 = .returned (peek env1 cmd s1) := by
    intro env1 fuel1 s1
    rcases dispatch_cases env1 fuel1 cmd s1 with ⟨h, -⟩ | ⟨h, -⟩ | ⟨h, -⟩ | ⟨h, -⟩ | ⟨-, h⟩ |
      ⟨h, -⟩
    · rw [hsub] at h; exact absurd h (by decide)
    · rw [hsub] at h; exact absurd h (by decide)
    · rw [hsub] at h; exact absurd h (by decide)
    · rw [hsub] at h; exact absurd h (by decide)
    · exact h
    · rw [hsub] at h; exact absurd h (by decide)
  cases hpk : peek env cmd s with
  | mk e t0 =>
    rcases peek_returned env cmd s t0 e hpk with ⟨rfl, rfl, hr⟩ |
      ⟨rfl, hr, p1, p2, p3, p4, -, p6, p7⟩
    · refine ⟨some .common, s.record (.getConsumer (consumerKey cmd)), ?_, rfl, rfl, rfl, rfl,
        ⟨[.getConsumer (consumerKey cmd)], rfl,
        by simp⟩, ⟨fun h => by simp at h, fun h => by rw [hr] at h; simp at h⟩,
        fun h => by simp at h⟩
      rw [Get_of_dispatch env sep fuel input s cmd hp, hd, hpk]
    · refine ⟨none, { t0 with out := t0.out ++ endMessage }, ?_, p1, p2, p3, p4,
        ⟨[.getConsumer (consumerKey cmd), .peek (consumerKey cmd)], p6, by simp⟩,
        ⟨fun _ => hr, fun _ => rfl⟩, fun _ => ?_⟩
      · rw [Get_of_dispatch env sep fuel input s cmd hp, hd, hpk]
      · refine ⟨(if 0 < ((s.items (consumerKey cmd)).headD []).length then
            valueMessage cmd.QueueName ((s.items (consumerKey cmd)).headD []) else [])
            ++ endMessage, ?_, ?_⟩
        · show t0.out ++ endMessage = _
          rw [p7, List.append_assoc]
        · intro env2 fuel2 s2 hitems hr2
          cases hpk2 : peek env2 cmd s2 with
          | mk e2 u0 =>
            rcases peek_returned env2 cmd s2 u0 e2 hpk2 with ⟨-, -, hf⟩ |
              ⟨rfl, -, -, -, -, -, -, -, q7⟩
            · rw [hr2] at hf; simp at hf
            · refine ⟨{ u0 with out := u0.out ++ endMessage }, ?_, ?_⟩
              · rw [Get_of_dispatch env2 sep fuel2 input s2 cmd hp, hd, hpk2]
              · show u0.out ++ endMessage = _
                rw [q7, hitems, List.append_assoc]

/-- Witness of C11: `q/peek` while `A` is held and `B` heads the queue. -/
theorem Get_peek_frame_witness :
    ∃ e t, Get calmEnv "::".toList 1 ["GET".toList, "q/peek".toList] heldState =
        .returned (e, t) ∧
      t.currentValue = heldState.currentValue ∧ t.currentCommand = heldState.currentCommand ∧
      t.openReads = heldState.openReads ∧ t.items = heldState.items ∧
      (e = none ↔ calmEnv.resolveFails heldState.log.length (consumerKey peekCmd) = false) := by
  obtain ⟨e, t, h0, h1, h2, h3, h4, -, h6, -⟩ :=
    Get_peek_frame calmEnv "::".toList 1 ["GET".toList, "q/peek".toList] heldState peekCmd
      (by decide) rfl
  exact ⟨e, t, h0, h1, h2, h3, h4, h6⟩

/-- C12 as stated fails for `close` and `abort`: `q/close` and `q/abort` on a
connection holding `A` both succeed and leave the GET counter at 1. -/
theorem Get_close_and_abort_do_not_count :
    (Get calmEnv "::".toList 1 ["GET".toList, "q/close".toList] heldState).error? = none ∧
      (Get calmEnv "::".toList 1 ["GET".toList, "q/close".toList] heldState).isReturned = true ∧
      ((Get calmEnv "::".toList 1 ["GET".toList, "q/close".toList] heldState).stateD
        freshState).cmdGet = heldState.cmdGet ∧
      (Get calmEnv "::".toList 1 ["GET".toList, "q/abort".toList] heldState).error? = none ∧
      (Get calmEnv "::".toList 1 ["GET".toList, "q/abort".toList] heldState).isReturned = true ∧
      ((Get calmEnv "::".toList 1 ["GET".toList, "q/abort".toList] heldState).stateD
        freshState).cmdGet = heldState.cmdGet := by
  decide

/-- C12, amended: a GET that returns without error moves the process-wide GET
counter (a `uint64`) up by exactly one when its sub-command is empty, `open`,
`close/open` or `peek`, whether or not a value was found, and leaves it
unchanged when its sub-command is `close` or `abort`; a GET that returns an
error leaves it unchanged. -/
theorem Get_counter (env : Env) (sep : Str) (fuel : Nat) (input : List Str) (s t : State)
    (e : Option Err) (h : Get env sep fuel input s = .returned (e, t)) :
    ∃ cmd, parseGetCommand sep input = some cmd ∧
      (e = none →
        (cmd.SubCommand = [] ∨ cmd.SubCommand = "open".toList ∨
          cmd.SubCommand = "close/open".toList ∨ cmd.SubCommand = "peek".toList) →
        t.cmdGet = (s.cmdGet + 1) % 2 ^ 64 ∧ (s.cmdGet + 1 < 2 ^ 64 → t.cmdGet = s.cmdGet + 1)) ∧
      (e = none → (cmd.SubCommand = "close".toList ∨ cmd.SubCommand = "abort".toList) →
        t.cmdGet = s.cmdGet) ∧
      (e ≠ none → t.cmdGet = s.cmdGet) := by
  obtain ⟨cmd, t0, hp, hd, ht⟩ := Get_returned env sep fuel input s t e h
  obtain ⟨d1, -, d3, d4, -, -⟩ := dispatch_effect env fuel cmd s t0 e hd
  have hc : t.cmdGet = t0.cmdGet := by
    rcases ht with ⟨-, rfl⟩ | ⟨-, rfl⟩ <;> rfl
  refine ⟨cmd, hp, fun he hs => ?_, fun he hs => by rw [hc, d4 he hs],
    fun he => by rw [hc, (d1 he).2]⟩
  have := d3 he hs
  refine ⟨by rw [hc, this], fun hlt => ?_⟩
  rw [hc, this, Nat.mod_eq_of_lt hlt]

/-- Witness of C12: `q/open` on a fresh connection counts one GET. -/
theorem Get_counter_witness :
    ∃ cmd, parseGetCommand "::".toList ["GET".toList, "q/open".toList] = some cmd ∧
      (cmd.SubCommand = [] ∨ cmd.SubCommand = "open".toList ∨
        cmd.SubCommand = "close/open".toList ∨ cmd.SubCommand = "peek".toList) ∧
      afterOpen.cmdGet = freshState.cmdGet + 1 := by
  obtain ⟨cmd, h0, h1, -, -⟩ :=
    Get_counter calmEnv "::".toList 1 ["GET".toList, "q/open".toList] freshState afterOpen none
      rfl
  have hc : cmd = openCmd := by
    have : parseGetCommand "::".toList ["GET".toList, "q/open".toList] = some openCmd := by
      decide
    rw [this] at h0
    exact (Option.some.inj h0).symm
  subst hc
  exact ⟨openCmd, h0, Or.inr (Or.inl rfl), (h1 rfl (Or.inr (Or.inl rfl))).2 (by decide)⟩

/-- The wire format of a successful open-get or peek: when the GET resolves its
consumer and obtains a non-empty `V`, the bytes written are exactly
`VALUE <name> 0 <len(V)>\r\n`, the bytes of `V`, `\r\n` and the terminator line,
`<name>` being the `QueueName` field the parser left in the command and `len(V)`
the byte length of `V`; when it obtains nothing the bytes written are exactly
the terminator line; in both cases no error is returned. -/
theorem Get_wire_format (env : Env) (sep : Str) (fuel : Nat) (input : List Str) (s : State)
    (cmd : Command) (V : Str)
    (hp : parseGetCommand sep input = some cmd) (hobt : Obtains env fuel cmd s V) :
    ∃ t, Get env sep fuel input s = .returned (none, t) ∧
      (V ≠ [] → t.out = s.out ++ ("VALUE ".toList ++ cmd.QueueName ++ " 0 ".toList ++
        (Nat.repr (byteLen V)).toList ++ "\r\n".toList ++ V ++ "\r\n".toList ++ "END\r\n".toList)) ∧
      (V = [] → t.out = s.out ++ "END\r\n".toList) := by
  have key : ∀ t0 : State, dispatch env fuel cmd s = .returned (none, t0) →
      ((V ≠ [] ∧ t0.out = s.out ++ valueMessage cmd.QueueName V) ∨ (V = [] ∧ t0.out = s.out)) →
      ∃ t, Get env sep fuel input s = .returned (none, t) ∧
        (V ≠ [] → t.out = s.out ++ ("VALUE ".toList ++ cmd.QueueName ++ " 0 ".toList ++
          (Nat.repr (byteLen V)).toList ++ "\r\n".toList ++ V ++ "\r\n".toList ++
          "END\r\n".toList)) ∧
        (V = [] → t.out = s.out ++ "END\r\n".toList) := by
    intro t0 hd hout
    refine ⟨{ t0 with out := t0.out ++ endMessage }, ?_, ?_, ?_⟩
    · rw [Get_of_dispatch env sep fuel input s cmd hp, hd]
    · intro hV
      rcases hout with ⟨-, b⟩ | ⟨a, -⟩
      · show t0.out ++ endMessage = _
        rw [b]
        simp [valueMessage, endMessage, List.append_assoc]
      · exact absurd a hV
    · intro hV
      rcases hout with ⟨a, -⟩ | ⟨-, b⟩
      · exact absurd hV a
      · show t0.out ++ endMessage = _
        rw [b]
        rfl
  have hget : ∀ s0 : State, s0.currentValue = none → s0.out = s.out →
      env.resolveFails s0.log.length (consumerKey cmd) = false →
      (∃ s3, dequeueLoop env fuel (consumerKey cmd) cmd
        (s0.record (.getConsumer (consumerKey cmd))) = some (V, s3)) →
      ∃ t0, get env fuel cmd s0 = .returned (none, t0) ∧
        ((V ≠ [] ∧ t0.out = s.out ++ valueMessage cmd.QueueName V) ∨
          (V = [] ∧ t0.out = s.out)) := by
    intro s0 hcv hout hr ⟨s3, hl⟩
    have hg : ∃ t0, get env fuel cmd s0 = .returned (none, t0) ∧ t0.out = s3.out := by
      unfold get
      rw [hcv]
      simp only [Option.isSome_none, Bool.false_eq_true, if_false, getConsumer_ok env cmd s0 hr, hl]
      refine ⟨_, rfl, ?_⟩
      by_cases hc : contains cmd.SubCommand "open".toList = true ∧ 0 < V.length
      · rw [if_pos hc]; rfl
      · rw [if_neg hc]
    obtain ⟨t0, g0, g1⟩ := hg
    refine ⟨t0, g0, ?_⟩
    rcases dequeueLoop_out env fuel _ cmd _ V s3 hl with ⟨a, b⟩ | ⟨a, b⟩
    · exact Or.inl ⟨a, by rw [g1, b, ← hout]; rfl⟩
    · exact Or.inr ⟨a, by rw [g1, b, ← hout]; rfl⟩
  rcases hobt with ⟨hs, hcv, hr, hl⟩ | ⟨hs, s0, hc, hr, hl⟩ | ⟨hs, hr, rfl⟩
  · obtain ⟨t0, g0, g1⟩ := hget s hcv rfl hr hl
    exact key t0 (by rw [dispatch_open env fuel cmd s hs, g0]) g1
  · have hcv := getClose_currentValue env cmd s s0 hc
    have hout : s0.out = s.out := by
      rcases getClose_returned env cmd s s0 none hc with ⟨h, -⟩ | ⟨-, -, -, c2, -⟩
      · simp at h
      · exact c2
    obtain ⟨t0, g0, g1⟩ := hget s0 hcv hout hr hl
    exact key t0 (by rw [dispatch_closeOpen env fuel cmd s hs, hc]; exact g0) g1
  · cases hpk : peek env cmd s with
    | mk e t0 =>
      rcases peek_returned env cmd s t0 e hpk with ⟨-, -, hf⟩ | ⟨rfl, -, -, -, -, -, -, -, p7⟩
      · rw [hr] at hf; simp at hf
      · have hd : dispatch env fuel cmd s = .returned (none, t0) := by
          rcases dispatch_cases env fuel cmd s with ⟨h, -⟩ | ⟨h, -⟩ | ⟨h, -⟩ | ⟨h, -⟩ |
            ⟨-, h⟩ | ⟨h, -⟩
          · rw [hs] at h; exact absurd h (by decide)
          · rw [hs] at h; exact absurd h (by decide)
          · rw [hs] at h; exact absurd h (by decide)
          · rw [hs] at h; exact absurd h (by decide)
          · rw [h, hpk]
          · rw [hs] at h; exact absurd h (by decide)
        apply key t0 hd
        by_cases hlen : 0 < ((s.items (consumerKey cmd)).headD []).length
        · rw [if_pos hlen] at p7
          exact Or.inl ⟨List.length_pos.mp hlen, p7⟩
        · rw [if_neg hlen] at p7
          exact Or.inr ⟨List.length_eq_zero.mp (Nat.eq_zero_of_not_pos hlen), by simpa using p7⟩

/-- The wire format at concrete inputs: `GET q/t=100` on an empty queue, the
clock passing the deadline at the next reading, answers with the terminator
only; `GET q/open` on the queue `[A, B]` answers with the `VALUE` block of `A`;
and a payload of one two-byte character is announced with length 2. -/
theorem Get_wire_format_examples :
    (∃ t, Get secondsEnv "::".toList 1 ["GET".toList, "q/t=100".toList] emptyState =
        .returned (none, t) ∧
      t.out = "END\r\n".toList) ∧
    (∃ t, Get calmEnv "::".toList 1 ["GET".toList, "q/open".toList] freshState =
        .returned (none, t) ∧
      t.out = "VALUE q 0 1\r\nA\r\nEND\r\n".toList) ∧
    valueMessage "q".toList "\u00e9".toList = "VALUE q 0 2\r\n\u00e9\r\n".toList := by
  refine ⟨?_, ?_, by decide⟩
  · obtain ⟨t, h0, -, h2⟩ :=
      Get_wire_format secondsEnv "::".toList 1 ["GET".toList, "q/t=100".toList] emptyState
        timedCmd [] (by decide)
        (Or.inl ⟨Or.inl rfl, rfl, rfl,
          ((dequeueLoop secondsEnv 1 (consumerKey timedCmd) timedCmd
            (emptyState.record (.getConsumer (consumerKey timedCmd)))).getD ([], emptyState)).2,
          rfl⟩)
    exact ⟨t, h0, h2 rfl⟩
  · obtain ⟨t, h0, h1, -⟩ :=
      Get_wire_format calmEnv "::".toList 1 ["GET".toList, "q/open".toList] freshState
        openCmd "A".toList (by decide)
        (Or.inl ⟨Or.inr rfl, rfl, rfl,
          ((dequeueLoop calmEnv 1 (consumerKey openCmd) openCmd
            (freshState.record (.getConsumer (consumerKey openCmd)))).getD ([], freshState)).2,
          rfl⟩)
    exact ⟨t, h0, (h1 (by decide)).trans (by decide)⟩

/-- C13 (wire format of a successful open-get or peek, the name in the `VALUE`
line being the queue name without sub-command, timeout or consumer group):
refuted by the code on specifiers whose timeout fragment is not preceded by a
slash.  With the queues `foot=5` and `qt=5/open` each holding `A`, `GET foot=5`
(timeout 5) answers `VALUE foot=5 0 1` and `GET qt=5/open` (timeout 5, empty
sub-command) answers `VALUE qt=5/open 0 1`: the name printed is the `QueueName`
field, which keeps the unstripped specifier when no slash is left after the
fragment has been stripped. -/
theorem Get_value_line_keeps_specifier :
    parseGetCommand "::".toList ["GET".toList, "foot=5".toList] =
        some { Name := "GET".toList, QueueName := "foot=5".toList, SubCommand := [],
               ConsumerGroup := [], Timeout := 5 } ∧
      (Get calmEnv "::".toList 1 ["GET".toList, "foot=5".toList] fragmentState).error? = none ∧
      ((Get calmEnv "::".toList 1 ["GET".toList, "foot=5".toList] fragmentState).stateD
        emptyState).out = "VALUE foot=5 0 1\r\nA\r\nEND\r\n".toList ∧
      parseGetCommand "::".toList ["GET".toList, "qt=5/open".toList] =
        some { Name := "GET".toList, QueueName := "qt=5/open".toList, SubCommand := [],
               ConsumerGroup := [], Timeout := 5 } ∧
      (Get calmEnv "::".toList 1 ["GET".toList, "qt=5/open".toList] fragmentState).error?
        = none ∧
      ((Get calmEnv "::".toList 1 ["GET".toList, "qt=5/open".toList] fragmentState).stateD
        emptyState).out = "VALUE qt=5/open 0 1\r\nA\r\nEND\r\n".toList := by
  decide

/-- C14 (terminator iff success): a GET that returns without error has written
at most one `VALUE` block followed by the terminator line, the terminator being
the last bytes and written once; a GET that returns an error has written
nothing at all. -/
theorem Get_terminator (env : Env) (sep : Str) (fuel : Nat) (input : List Str) (s t : State)
    (e : Option Err) (h : Get env sep fuel input s = .returned (e, t)) :
    (e = none → ∃ body, t.out = s.out ++ body ++ endMessage ∧
      (body = [] ∨ ∃ q V, V ≠ [] ∧ body = valueMessage q V)) ∧
    (e ≠ none → t.out = s.out) := by
  obtain ⟨cmd, t0, -, hd, ht⟩ := Get_returned env sep fuel input s t e h
  obtain ⟨d1, d2, -⟩ := dispatch_effect env fuel cmd s t0 e hd
  constructor
  · intro he
    rcases ht with ⟨-, rfl⟩ | ⟨hne, -⟩
    · rcases d2 he with a | ⟨V, a, b⟩
      · exact ⟨[], by show t0.out ++ endMessage = _; rw [a]; simp, Or.inl rfl⟩
      · exact ⟨valueMessage cmd.QueueName V, by show t0.out ++ endMessage = _; rw [b],
          Or.inr ⟨_, V, a, rfl⟩⟩
    · exact absurd he hne
  · intro he
    rcases ht with ⟨h0, -⟩ | ⟨-, rfl⟩
    · exact absurd h0 he
    · exact (d1 he).1

/-- Witness of C14: `q/open` on a fresh connection writes one `VALUE` block and
the terminator. -/
theorem Get_terminator_witness :
    ∃ body, afterOpen.out = freshState.out ++ body ++ endMessage ∧
      (body = [] ∨ ∃ q V, V ≠ [] ∧ body = valueMessage q V) :=
  (Get_terminator calmEnv "::".toList 1 ["GET".toList, "q/open".toList] freshState afterOpen none
    rfl).1 rfl

/-- C15 (invalid sub-command): when the parsed sub-command is none of the six,
`Get` returns `ErrInvalidCommand` and the whole state is as before (no consumer
resolved, nothing written, transaction state and counters unchanged); when it is
one of the six, `Get` never returns `ErrInvalidCommand`. -/
theorem Get_invalid_subcommand (env : Env) (sep : Str) (fuel : Nat) (input : List Str)
    (s : State) (cmd : Command) (hp : parseGetCommand sep input = some cmd) :
    (cmd.SubCommand ∉ subCommands →
      Get env sep fuel input s = .returned (some .invalidCommand, s)) ∧
    (cmd.SubCommand ∈ subCommands →
      (Get env sep fuel input s).error? ≠ some .invalidCommand) := by
  constructor
  · intro hn
    rcases dispatch_cases env fuel cmd s with ⟨h, -⟩ | ⟨h, -⟩ | ⟨h, -⟩ | ⟨h, -⟩ | ⟨h, -⟩ |
      ⟨-, h⟩
    · exact absurd (by rcases h with h | h <;> rw [h] <;> decide) hn
    · exact absurd (by rw [h]; decide) hn
    · exact absurd (by rw [h]; decide) hn
    · exact absurd (by rw [h]; decide) hn
    · exact absurd (by rw [h]; decide) hn
    · rw [Get_of_dispatch env sep fuel input s cmd hp, h]
  · intro hm hcontra
    cases hg : Get env sep fuel input s with
    | panicked => rw [hg] at hcontra; simp [Outcome.error?] at hcontra
    | running => rw [hg] at hcontra; simp [Outcome.error?] at hcontra
    | returned p =>
      obtain ⟨e, t⟩ := p
      rw [hg] at hcontra
      simp only [Outcome.error?] at hcontra
      subst hcontra
      obtain ⟨cmd2, t0, hp2, hd, -⟩ := Get_returned env sep fuel input s t _ hg
      rw [hp] at hp2
      cases hp2
      obtain ⟨-, -, -, -, d5, -⟩ := dispatch_effect env fuel cmd s t0 _ hd
      exact (d5.mp rfl) hm

/-- Witness of C15: `q/bogus`, `q/OPEN` and `q/open/close` are rejected and the
state is untouched. -/
theorem Get_invalid_subcommand_witness :
    Get calmEnv "::".toList 1 ["GET".toList, "q/bogus".toList] heldState =
        .returned (some .invalidCommand, heldState) ∧
      (Get calmEnv "::".toList 1 ["GET".toList, "q/OPEN".toList] heldState).error? =
        some .invalidCommand ∧
      (Get calmEnv "::".toList 1 ["GET".toList, "q/open/close".toList] freshState).error? =
        some .invalidCommand :=
  ⟨(Get_invalid_subcommand calmEnv "::".toList 1 ["GET".toList, "q/bogus".toList] heldState
      bogusCmd (by decide)).1 (by decide), by decide, by decide⟩

/-! ## Timeouts and the deadline -/

theorem wrap64_id (x : Int) (h1 : -2 ^ 63 ≤ x) (h2 : x < 2 ^ 63) : wrap64 x = x := by
  unfold wrap64
  omega

theorem deadlineOf_eq (t0 T : Int) : deadlineOf t0 T = wrap64 (t0 + T * 1000000) := by
  unfold deadlineOf wrap64
  omega

/-- C16 as stated fails for a clock that is only non-decreasing: with the
readings 0, 0, 2 and an empty queue, `GET q` (timeout 0) polls twice and sleeps
in between. -/
theorem zero_timeout_polls_twice_on_equal_readings :
    (∀ n, stutterEnv.clock n ≤ stutterEnv.clock (n + 1)) ∧
      parseGetCommand "::".toList ["GET".toList, "q".toList] = some plainCmd ∧
      plainCmd.Timeout = 0 ∧
      ((Get stutterEnv "::".toList 2 ["GET".toList, "q".toList] emptyState).stateD
        freshState).log =
        [.getConsumer qKey, .now, .getNext qKey, .now, .sleep, .getNext qKey, .now] := by
  refine ⟨?_, by decide, rfl, by decide⟩
  intro n
  simp only [stutterEnv]
  split_ifs <;> omega

/-- One round of the polling loop suffices when the queue head is a non-empty
value or the next clock reading is past the deadline. -/
theorem pollLoop_single (env : Env) (q : Key) (cmd : Command) (deadline : Int) (fuel : Nat)
    (s1 : State)
    (hcase : (∃ v rest, s1.items q = v :: rest ∧ v ≠ []) ∨ deadline < env.clock s1.clockReads) :
    ∃ V s3, pollLoop env q cmd deadline (fuel + 1) s1 = some (V, s3) ∧
      (s3.log = s1.log ++ [.getNext q] ∨ s3.log = s1.log ++ [.getNext q, .now]) ∧
      s3.sleeps = s1.sleeps := by
  rw [pollLoop]
  cases hi : s1.items q with
  | nil =>
    rcases hcase with ⟨v, rest, h, -⟩ | hd
    · rw [hi] at h; simp at h
    · simp only [getNext, hi, List.length_nil, Nat.lt_irrefl, if_false, now, State.record, hd,
        if_true]
      exact ⟨_, _, rfl, Or.inr (by simp), rfl⟩
  | cons v rest =>
    by_cases hv : 0 < v.length
    · simp only [getNext, hi, hv, if_true]
      exact ⟨_, _, rfl, Or.inl rfl, rfl⟩
    · rcases hcase with ⟨v2, rest2, h, hne⟩ | hd
      · rw [hi] at h
        simp only [List.cons.injEq] at h
        exact absurd (List.length_pos.mpr (h.1 ▸ hne)) hv
      · simp only [getNext, hi, hv, if_false, now, State.record, hd, if_true]
        exact ⟨_, _, rfl, Or.inr (by simp), rfl⟩

/-- C16, amended: with timeout 0 the dequeue loop makes exactly one `GetNext`
call and never sleeps whenever the first attempt returns a non-empty value, or
the clock reading taken after the attempt is strictly later than the reading
that fixed the deadline (readings being `int64` values). -/
theorem dequeueLoop_zero_timeout (env : Env) (fuel : Nat) (q : Key) (cmd : Command) (s : State)
    (hT : cmd.Timeout = 0)
    (hadv : (∃ v rest, s.items q = v :: rest ∧ v ≠ []) ∨
      (-2 ^ 63 ≤ env.clock s.clockReads ∧ env.clock s.clockReads < 2 ^ 63 ∧
        env.clock s.clockReads < env.clock (s.clockReads + 1))) :
    ∃ V s3, dequeueLoop env (fuel + 1) q cmd s = some (V, s3) ∧
      (s3.log = s.log ++ [.now, .getNext q] ∨ s3.log = s.log ++ [.now, .getNext q, .now]) ∧
      s3.sleeps = s.sleeps := by
  have hcase : (∃ v rest, (now env s).2.items q = v :: rest ∧ v ≠ []) ∨
      deadlineOf (env.clock s.clockReads) cmd.Timeout < env.clock (now env s).2.clockReads := by
    rcases hadv with h | ⟨h1, h2, h3⟩
    · exact Or.inl h
    · right
      rw [hT, deadlineOf_eq, wrap64_id _ (by omega) (by omega)]
      simp only [now]
      omega
  obtain ⟨V, s3, g0, g1, g2⟩ := pollLoop_single env q cmd _ fuel (now env s).2 hcase
  refine ⟨V, s3, g0, ?_, g2⟩
  rcases g1 with g1 | g1
  · exact Or.inl (by rw [g1]; simp [now, State.record])
  · exact Or.inr (by rw [g1]; simp [now, State.record])

/-- Witness of C16: on an empty queue with a clock that advances at each
reading, one `GetNext` and no sleep. -/
theorem dequeueLoop_zero_timeout_witness :
    ∃ V s3, dequeueLoop secondsEnv (0 + 1) qKey plainCmd emptyState = some (V, s3) ∧
      (s3.log = emptyState.log ++ [.now, .getNext qKey] ∨
        s3.log = emptyState.log ++ [.now, .getNext qKey, .now]) ∧
      s3.sleeps = emptyState.sleeps :=
  dequeueLoop_zero_timeout secondsEnv 0 qKey plainCmd emptyState rfl
    (Or.inr ⟨by decide, by decide, by decide⟩)

theorem parseRest_timeout (sep : Str) (cmd : Command) (spec : Str) (cmd2 : Command)
    (h : parseRest sep cmd spec = some cmd2) : cmd2.Timeout = cmd.Timeout := by
  unfold parseRest at h
  have hfin : ∀ c : Command, c.Timeout = cmd.Timeout →
      (if contains c.QueueName sep = true then
        (splitN c.QueueName sep 3)[0]?.bind fun t0 =>
          (splitN c.QueueName sep 3)[1]?.bind fun t1 =>
            some { c with QueueName := t0, ConsumerGroup := t1 }
      else some c) = some cmd2 → cmd2.Timeout = cmd.Timeout := by
    intro c hc hres
    by_cases h2 : contains c.QueueName sep = true
    · rw [if_pos h2] at hres
      cases h3 : (splitN c.QueueName sep 3)[0]? with
      | none => rw [h3] at hres; simp at hres
      | some t0 =>
        cases h4 : (splitN c.QueueName sep 3)[1]? with
        | none => rw [h3, h4] at hres; simp at hres
        | some t1 =>
          rw [h3, h4] at hres
          simp only [Option.bind, Option.some.injEq] at hres
          rw [← hres]; exact hc
    · rw [if_neg h2] at hres
      simp only [Option.some.injEq] at hres
      rw [← hres]; exact hc
  by_cases h1 : contains spec ['/'] = true
  · simp only [h1, if_true] at h
    cases h3 : (splitN spec ['/'] 2)[0]? with
    | none => simp [h3] at h
    | some t0 =>
      cases h4 : (splitN spec ['/'] 2)[1]? with
      | none => simp [h3, h4] at h
      | some t1 =>
        simp only [h3, h4, bind, Option.bind, pure] at h
        exact hfin { cmd with QueueName := t0, SubCommand := trim t1 ['/'] } rfl h
  · simp only [h1, Bool.false_eq_true, if_false, bind, Option.bind, pure] at h
    exact hfin cmd rfl h

theorem timeoutMatchAt_digits (s d sl : Str) (h : timeoutMatchAt s = some (d, sl)) :
    d ≠ [] ∧ d.all Char.isDigit = true := by
  unfold timeoutMatchAt at h
  by_cases hp : List.isPrefixOf ['t', '='] s = true
  · rw [if_pos hp] at h
    by_cases he : (List.takeWhile Char.isDigit (List.drop 2 s)).isEmpty = true
    · simp [he] at h
    · simp only [he, Bool.false_eq_true, if_false, Option.some.injEq, Prod.mk.injEq] at h
      obtain ⟨rfl, -⟩ := h
      refine ⟨by simpa using he, ?_⟩
      rw [List.all_eq_true]
      intro c hc
      exact List.mem_takeWhile_imp hc
  · rw [if_neg hp] at h
    simp at h

theorem findStringSubmatch_digits (s : Str) (d : Str) (h : (findStringSubmatch s)[2]? = some d) :
    d ≠ [] ∧ d.all Char.isDigit = true := by
  induction s with
  | nil => simp [findStringSubmatch] at h
  | cons c cs ih =>
    cases hm : timeoutMatchAt (c :: cs) with
    | none =>
      simp only [findStringSubmatch, hm] at h
      exact ih h
    | some p =>
      obtain ⟨d2, sl⟩ := p
      simp only [findStringSubmatch, hm] at h
      simp at h
      subst h
      exact timeoutMatchAt_digits _ _ _ hm

theorem atoi_digits_large (N : Str) (hN : N ≠ []) (hd : N.all Char.isDigit = true)
    (hbig : maxInt < (decimalValue N : Int)) : atoi N = (maxInt, false) := by
  cases N with
  | nil => exact absurd rfl hN
  | cons n ns =>
    have hn : n.isDigit = true := by
      simp only [List.all_cons, Bool.and_eq_true] at hd; exact hd.1
    have h1 : n ≠ '-' := by rintro rfl; revert hn; decide
    have h2 : n ≠ '+' := by rintro rfl; revert hn; decide
    simp [atoi, h1, h2, hd, hbig]

/-- The timeout the parser yields: 0 without `t=`; otherwise the value of the
digit run of the leftmost fragment when it fits `int`, and the largest `int`
when it does not.  It is never negative. -/
theorem parseGetCommand_timeout (sep v spec : Str) (rest : List Str) (cmd : Command)
    (h : parseGetCommand sep (v :: spec :: rest) = some cmd) :
    0 ≤ cmd.Timeout ∧ cmd.Timeout ≤ maxInt ∧
    (contains spec ['t', '='] = false → cmd.Timeout = 0) ∧
    (contains spec ['t', '='] = true →
      ∃ d, (findStringSubmatch spec)[2]? = some d ∧ d ≠ [] ∧ d.all Char.isDigit = true ∧
        ((decimalValue d : Int) ≤ maxInt → cmd.Timeout = decimalValue d) ∧
        (maxInt < (decimalValue d : Int) → cmd.Timeout = maxInt)) := by
  rw [parseGetCommand_cons] at h
  by_cases hc : contains spec ['t', '='] = true
  · rw [if_pos hc] at h
    cases hf : (findStringSubmatch spec)[2]? with
    | none => rw [hf] at h; simp at h
    | some d =>
      rw [hf] at h
      have ht := parseRest_timeout _ _ _ _ h
      simp only at ht
      obtain ⟨hne, hd⟩ := findStringSubmatch_digits spec d hf
      have hcases : ((decimalValue d : Int) ≤ maxInt → cmd.Timeout = decimalValue d) ∧
          (maxInt < (decimalValue d : Int) → cmd.Timeout = maxInt) := by
        constructor
        · intro hle; rw [ht, atoi_digits d hne hd hle]
        · intro hgt; rw [ht, atoi_digits_large d hne hd hgt]
      have hmax : (0 : Int) ≤ maxInt := by decide
      refine ⟨?_, ?_, fun hf2 => by rw [hc] at hf2; simp at hf2, fun _ => ⟨d, rfl, hne, hd, hcases⟩⟩
      · by_cases hle : (decimalValue d : Int) ≤ maxInt
        · rw [hcases.1 hle]; exact Int.ofNat_nonneg _
        · rw [hcases.2 (by omega)]; exact hmax
      · by_cases hle : (decimalValue d : Int) ≤ maxInt
        · rw [hcases.1 hle]; exact hle
        · rw [hcases.2 (by omega)]
  · rw [if_neg hc] at h
    have ht := parseRest_timeout _ _ _ _ h
    simp only at ht
    have hmax : (0 : Int) ≤ maxInt := by decide
    refine ⟨by rw [ht], by rw [ht]; exact hmax, fun _ => ht, fun hf2 => absurd hf2 hc⟩

/-- C17 (timeout value, 0 on any parse failure): refuted by the code on a digit
run too large for `int`.  For `q/t=99999999999999999999` `strconv.Atoi` returns
the largest `int` together with a range error, the error is discarded, and the
timeout is 9223372036854775807 instead of 0. -/
theorem parseGetCommand_oversized_timeout :
    parseGetCommand "::".toList ["GET".toList, "q/t=99999999999999999999".toList] =
      some { Name := "GET".toList, QueueName := "q".toList, SubCommand := [],
             ConsumerGroup := [], Timeout := 9223372036854775807 } := by
  decide

/-- C18 as stated fails for large timeouts the parser does produce: the
specifier `q/t=9223372036855` parses to the timeout 9223372036855, whose
product with 1000000 exceeds `int64`; from the start time 0 the wrapped deadline
is negative, earlier than the start. -/
theorem deadline_wraps_for_large_timeout :
    parseGetCommand "::".toList ["GET".toList, "q/t=9223372036855".toList] =
        some { Name := "GET".toList, QueueName := "q".toList, SubCommand := [],
               ConsumerGroup := [], Timeout := 9223372036855 } ∧
      deadlineOf 0 9223372036855 = -9223372036854551616 ∧
      deadlineOf 0 9223372036855 < 0 ∧
      deadlineOf 0 9223372036855 < deadlineOf 0 1 := by
  decide

/-- C18, amended: for a non-negative timeout `T` and a start time `t0` (an
`int64`) such that `t0 + T * 1000000` does not exceed the largest `int64`, the
deadline is exactly `t0 + T * 1000000`, it is not earlier than the start time,
and a larger timeout within the same bound does not give an earlier deadline. -/
theorem deadlineOf_exact (t0 T : Int) (hT : 0 ≤ T) (h0 : -2 ^ 63 ≤ t0)
    (hfit : t0 + T * 1000000 < 2 ^ 63) :
    deadlineOf t0 T = t0 + T * 1000000 ∧ t0 ≤ deadlineOf t0 T ∧
      ∀ T2, T ≤ T2 → t0 + T2 * 1000000 < 2 ^ 63 → deadlineOf t0 T ≤ deadlineOf t0 T2 := by
  have h1 : deadlineOf t0 T = t0 + T * 1000000 := by
    rw [deadlineOf_eq, wrap64_id _ (by omega) hfit]
  refine ⟨h1, by rw [h1]; omega, fun T2 hle hfit2 => ?_⟩
  rw [h1, deadlineOf_eq, wrap64_id _ (by omega) hfit2]
  omega

/-- Witness of C18: timeout 100 ms from the start time 5 ns. -/
theorem deadlineOf_exact_witness :
    deadlineOf 5 100 = 5 + 100 * 1000000 ∧ (5 : Int) ≤ deadlineOf 5 100 ∧
      ∀ T2, (100 : Int) ≤ T2 → 5 + T2 * 1000000 < 2 ^ 63 → deadlineOf 5 100 ≤ deadlineOf 5 T2 :=
  deadlineOf_exact 5 100 (by decide) (by decide) (by decide)

/-! ## Invariants over sequences of GET calls -/

/-- How one returned `Get` moves the transaction state: it keeps both fields,
clears both (only `close`, `close/open`, `abort`), or sets both to a non-empty
value and the parsed command (only without error and with `open` in the
sub-command). -/
theorem Get_transition (env : Env) (sep : Str) (fuel : Nat) (input : List Str) (s t : State)
    (e : Option Err) (h : Get env sep fuel input s = .returned (e, t)) :
    ∃ cmd, parseGetCommand sep input = some cmd ∧
      ((t.currentValue = s.currentValue ∧ t.currentCommand = s.currentCommand) ∨
        (t.currentValue = none ∧ t.currentCommand = none ∧
          (cmd.SubCommand = "close".toList ∨ cmd.SubCommand = "close/open".toList ∨
            cmd.SubCommand = "abort".toList)) ∨
        ∃ V, V ≠ [] ∧ t.currentValue = some V ∧ t.currentCommand = some cmd ∧
          contains cmd.SubCommand "open".toList = true ∧ e = none) := by
  obtain ⟨cmd, t0, hp, hd, ht⟩ := Get_returned env sep fuel input s t e h
  obtain ⟨-, -, -, -, -, d6⟩ := dispatch_effect env fuel cmd s t0 e hd
  refine ⟨cmd, hp, ?_⟩
  have h1 : t.currentValue = t0.currentValue ∧ t.currentCommand = t0.currentCommand := by
    rcases ht with ⟨-, rfl⟩ | ⟨-, rfl⟩ <;> exact ⟨rfl, rfl⟩
  rw [h1.1, h1.2]
  exact d6

theorem reachable_inv (s : State) (hr : Reachable s) : TransactionInv s := by
  induction hr with
  | start s hv hc => exact Or.inl ⟨hv, hc⟩
  | step env sep fuel input s t e _ hg ih =>
    obtain ⟨cmd, -, hcase⟩ := Get_transition env sep fuel input s t e hg
    rcases hcase with ⟨a, b⟩ | ⟨a, b, -⟩ | ⟨V, a, b, c, -⟩
    · rcases ih with ⟨i1, i2⟩ | ⟨v, c, i1, i2, i3⟩
      · exact Or.inl ⟨by rw [a, i1], by rw [b, i2]⟩
      · exact Or.inr ⟨v, c, by rw [a, i1], by rw [b, i2], i3⟩
    · exact Or.inl ⟨a, b⟩
    · exact Or.inr ⟨V, cmd, b, c, a⟩

/-- C19 (transaction-state invariant): in every state reachable from a
connection with nothing held by any sequence of returning `Get` calls, a value
is held if and only if a command is stored, and a held value is non-empty; and
every further `Get` keeps both fields, clears both (only `close`, `close/open`
or `abort`) or sets both (only a successful get whose sub-command contains
`open`). -/
theorem transaction_invariant (s : State) (hr : Reachable s) :
    (s.currentValue.isSome ↔ s.currentCommand.isSome) ∧
    (∀ v, s.currentValue = some v → v ≠ []) ∧
    ∀ (env : Env) (sep : Str) (fuel : Nat) (input : List Str) (e : Option Err) (t : State),
      Get env sep fuel input s = .returned (e, t) →
      ∃ cmd, parseGetCommand sep input = some cmd ∧
        ((t.currentValue = s.currentValue ∧ t.currentCommand = s.currentCommand) ∨
          (t.currentValue = none ∧ t.currentCommand = none ∧
            (cmd.SubCommand = "close".toList ∨ cmd.SubCommand = "close/open".toList ∨
              cmd.SubCommand = "abort".toList)) ∨
          ∃ V, V ≠ [] ∧ t.currentValue = some V ∧ t.currentCommand = some cmd ∧
            contains cmd.SubCommand "open".toList = true ∧ e = none) := by
  refine ⟨?_, ?_, fun env sep fuel input e t h => Get_transition env sep fuel input s t e h⟩
  · rcases reachable_inv s hr with ⟨a, b⟩ | ⟨v, c, a, b, -⟩
    · rw [a, b]; simp
    · rw [a, b]; simp
  · intro v hv
    rcases reachable_inv s hr with ⟨a, -⟩ | ⟨v2, c, a, -, hne⟩
    · rw [a] at hv; simp at hv
    · rw [a] at hv
      cases hv
      exact hne

/-- Witness of C19: the state after `GET q/open` on the queue `[A, B]`. -/
theorem transaction_invariant_witness :
    (afterOpen.currentValue.isSome ↔ afterOpen.currentCommand.isSome) ∧
      (∀ v, afterOpen.currentValue = some v → v ≠ []) := by
  obtain ⟨h1, h2, -⟩ := transaction_invariant afterOpen
    (Reachable.step calmEnv "::".toList 1 ["GET".toList, "q/open".toList] freshState afterOpen
      none (Reachable.start freshState rfl rfl) rfl)
  exact ⟨h1, h2⟩

theorem track_same (s t : State) (h1 : t.currentValue = s.currentValue)
    (h2 : t.currentCommand = s.currentCommand) (h3 : t.openReads = s.openReads)
    (hs : CountersTrack s) : CountersTrack t := by
  unfold CountersTrack at *
  rw [h1, h2, h3]
  exact hs

theorem track_cleared (s t : State) (v : Str) (c : Command) (hv : s.currentValue = some v)
    (hc : s.currentCommand = some c) (h1 : t.currentValue = none)
    (h3 : t.openReads = (fun k => if k = consumerKey c then s.openReads k + -1
      else s.openReads k))
    (hs : CountersTrack s) : CountersTrack t := by
  obtain ⟨a, b⟩ := hs.2 v c hv hc
  refine ⟨fun _ k => ?_, fun v2 c2 h => by rw [h1] at h; simp at h⟩
  rw [h3]
  by_cases hk : k = consumerKey c
  · subst hk; simp [a]
  · simp [hk, b k hk]

theorem get_track (env : Env) (fuel : Nat) (cmd : Command) (s t : State) (e : Option Err)
    (h : get env fuel cmd s = .returned (e, t)) (hs : CountersTrack s) : CountersTrack t := by
  rcases get_returned env fuel cmd s t e h with ⟨-, rfl, -⟩ | ⟨-, rfl, -⟩ |
    ⟨-, hcv, -, V, s3, -, -, -, -, h4⟩
  · exact hs
  · exact track_same s _ rfl rfl rfl hs
  · rcases h4 with ⟨-, -, c, d, f, -⟩ | ⟨-, c, d, f, -⟩
    · refine ⟨fun hn => by rw [c] at hn; simp at hn, fun v2 c2 hv2 hc2 => ?_⟩
      rw [d] at hc2
      cases hc2
      rw [f]
      refine ⟨by simp [hs.1 hcv], fun k hk => by simp [hk, hs.1 hcv]⟩
    · exact track_same s t (by rw [c, hcv]) d f hs

theorem getClose_track (env : Env) (cmd : Command) (s t : State) (e : Option Err)
    (h : getClose env cmd s = (e, t)) (hs : CountersTrack s) (hi : TransactionInv s)
    (hown : ∀ v c, s.currentValue = some v → s.currentCommand = some c →
      consumerKey cmd = consumerKey c) :
    CountersTrack t ∧ TransactionInv t := by
  rcases getClose_returned env cmd s t e h with ⟨-, rfl, -⟩ | ⟨-, -, c1, -, -, -, c5⟩
  · exact ⟨track_same s _ rfl rfl rfl hs, hi⟩
  · rcases c5 with ⟨v, hv, d1, d2, -⟩ | ⟨hv, d1, d2, -⟩
    · rcases hi with ⟨i1, -⟩ | ⟨v2, c, -, i2, -⟩
      · rw [i1] at hv; simp at hv
      · rw [hown v c hv i2] at d2
        exact ⟨track_cleared s t v c hv i2 c1 d2 hs, Or.inl ⟨c1, d1⟩⟩
    · refine ⟨track_same s t (by rw [c1, hv]) d1 d2 hs, ?_⟩
      rcases hi with ⟨-, i2⟩ | ⟨v2, c, i1, -, -⟩
      · exact Or.inl ⟨c1, by rw [d1, i2]⟩
      · rw [hv] at i1; simp at i1

theorem abort_track (env : Env) (s t : State) (e : Option Err)
    (h : abort env s = .returned (e, t)) (hs : CountersTrack s) : CountersTrack t := by
  rcases abort_returned env s t e h with ⟨-, -, rfl⟩ | ⟨v, cc, hv, hc, -, -, a3⟩
  · exact hs
  · rcases a3 with ⟨-, b1, b2, b3, -⟩ | ⟨-, b1, -, b3, -⟩
    · exact track_same s t b1 b2 b3 hs
    · exact track_cleared s t v cc hv hc b1 b3 hs

/-- One returning `Get` keeps the counters in step with the transaction state,
provided a close issued while a value is held names the stored command's
consumer. -/
theorem Get_track (env : Env) (sep : Str) (fuel : Nat) (input : List Str) (s t : State)
    (e : Option Err) (cmd : Command) (hp : parseGetCommand sep input = some cmd)
    (hown : ∀ v c, s.currentValue = some v → s.currentCommand = some c →
      (cmd.SubCommand = "close".toList ∨ cmd.SubCommand = "close/open".toList) →
      consumerKey cmd = consumerKey c)
    (h : Get env sep fuel input s = .returned (e, t)) (hs : CountersTrack s)
    (hi : TransactionInv s) : CountersTrack t := by
  obtain ⟨cmd2, t0, hp2, hd, ht⟩ := Get_returned env sep fuel input s t e h
  rw [hp] at hp2
  cases hp2
  have ht0 : CountersTrack t0 → CountersTrack t := by
    intro h0
    rcases ht with ⟨-, rfl⟩ | ⟨-, rfl⟩
    · exact track_same t0 _ rfl rfl rfl h0
    · exact h0
  apply ht0
  rcases dispatch_cases env fuel cmd s with ⟨-, hc⟩ | ⟨hsub, hc⟩ | ⟨hsub, hc⟩ | ⟨-, hc⟩ |
    ⟨-, hc⟩ | ⟨-, hc⟩
  · rw [hc] at hd
    exact get_track env fuel cmd s t0 e hd hs
  · rw [hc] at hd
    simp only [Outcome.returned.injEq] at hd
    exact (getClose_track env cmd s t0 e hd hs hi
      (fun v c hv hcc => hown v c hv hcc (Or.inl hsub))).1
  · rw [hc] at hd
    cases hcl : getClose env cmd s with
    | mk e1 s1 =>
      rw [hcl] at hd
      obtain ⟨k1, -⟩ := getClose_track env cmd s s1 e1 hcl hs hi
        (fun v c hv hcc => hown v c hv hcc (Or.inr hsub))
      cases e1 with
      | none => exact get_track env fuel cmd s1 t0 e hd k1
      | some x =>
        simp only [Outcome.returned.injEq, Prod.mk.injEq] at hd
        rw [← hd.2]
        exact k1
  · rw [hc] at hd
    exact abort_track env s t0 e hd hs
  · rw [hc] at hd
    simp only [Outcome.returned.injEq] at hd
    rcases peek_returned env cmd s t0 e hd with ⟨-, rfl, -⟩ | ⟨-, -, p1, p2, p3, -⟩
    · exact track_same s _ rfl rfl rfl hs
    · exact track_same s t0 p1 p2 p3 hs
  · rw [hc] at hd
    simp only [Outcome.returned.injEq, Prod.mk.injEq] at hd
    rw [← hd.2]
    exact hs

/-- As long as every close issued while a value is held names the queue and
group the transaction was opened from, the open-read counter of each consumer is
1 if the open transaction was opened from it and 0 otherwise. -/
theorem counters_track_own_close (s : State) (hr : ReachableOwnClose s) :
    CountersTrack s ∧ TransactionInv s := by
  induction hr with
  | start s hv hc h0 =>
    exact ⟨⟨fun _ => h0, fun v c h => by rw [hv] at h; simp at h⟩, Or.inl ⟨hv, hc⟩⟩
  | step env sep fuel input s t e cmd _ hp hown hg ih =>
    refine ⟨Get_track env sep fuel input s t e cmd hp hown hg ih.1 ih.2, ?_⟩
    obtain ⟨cmd2, -, hcase⟩ := Get_transition env sep fuel input s t e hg
    rcases hcase with ⟨a, b⟩ | ⟨a, b, -⟩ | ⟨V, a, b, c, -⟩
    · rcases ih.2 with ⟨i1, i2⟩ | ⟨v, c, i1, i2, i3⟩
      · exact Or.inl ⟨by rw [a, i1], by rw [b, i2]⟩
      · exact Or.inr ⟨v, c, by rw [a, i1], by rw [b, i2], i3⟩
    · exact Or.inl ⟨a, b⟩
    · exact Or.inr ⟨V, cmd2, b, c, a⟩

/-- C20 (the open-read counter tracks open reads per queue): refuted by the code
on a close that names another queue.  From a fresh connection (every counter 0,
queue `q` holding `A`, `B`), `GET q/open` then `GET other/close` leaves no
transaction open, yet the counter of `q` is still 1 and the counter of `other`
is -1: `getClose` decrements the consumer of its own command, where `abort`
uses the stored command.  (When every close names the queue the transaction was
opened from, `counters_track_own_close` gives the claimed values.) -/
theorem close_on_other_queue_breaks_counters :
    (∀ k, freshState.openReads k = 0) ∧ freshState.currentValue = none ∧
      afterOpen.currentValue = some "A".toList ∧ afterOpen.openReads qKey = 1 ∧
      (Get calmEnv "::".toList 1 ["GET".toList, "other/close".toList] afterOpen).error? = none ∧
      (Get calmEnv "::".toList 1 ["GET".toList, "other/close".toList] afterOpen).isReturned
        = true ∧
      afterOtherClose.currentValue = none ∧ afterOtherClose.openReads qKey = 1 ∧
      afterOtherClose.openReads otherKey = -1 := by
  refine ⟨fun _ => rfl, rfl, ?_⟩
  decide

end Siberite
